import Mathlib

/-!
Verification development for the magnum-plugins scene importers
(`UfbxImporter.cpp` and `CgltfImporter.cpp`): a shallow embedding of the
mesh-chunking, scene-flattening, instance-binding, configuration-validation,
cycle-detection and image-cache logic, with theorems about the claimed
properties.
-/

namespace UfbxModel

/-- Primitive kind of a mesh chunk, mirroring `MeshPrimitive` as used by the
importer (`Points`, `Lines`, `Triangles`). -/
inductive MeshPrim where
  | points
  | lines
  | triangles
deriving DecidableEq, Repr

/-- Order in which the chunk-building loop tests the face counters of one
material slot: points, then lines, then triangles. -/
def MeshPrim.idx : MeshPrim → Nat
  | .points => 0
  | .lines => 1
  | .triangles => 2

/-- One entry of `ufbx_mesh::materials[]`: the (possibly null) material
reference of the slot plus the per-primitive-kind face counts the chunk
builder inspects (`num_point_faces`, `num_line_faces`, `num_triangles`). -/
structure UfbxMeshMaterial where
  material : Option Nat
  num_point_faces : Nat
  num_line_faces : Nat
  num_triangles : Nat
deriving DecidableEq, Repr

instance : Inhabited UfbxMeshMaterial := ⟨⟨Option.none, 0, 0, 0⟩⟩

/-- Face count of a slot for a given primitive kind, as read by the loop in
`UfbxImporter::openInternal`. -/
def faceCount (mat : UfbxMeshMaterial) : MeshPrim → Nat
  | .points => mat.num_point_faces
  | .lines => mat.num_line_faces
  | .triangles => mat.num_triangles

/-- A source mesh: its material slots (`ufbx_mesh::materials[]`), the number
of nodes instancing it (`ufbx_mesh::instances.count`) and whether it has skin
deformers. -/
structure UfbxMesh where
  materials : List UfbxMeshMaterial
  instanceCount : Nat
  skinned : Bool
deriving DecidableEq, Repr

instance : Inhabited UfbxMesh := ⟨⟨[], 0, false⟩⟩

/-- `MeshChunk` from `UfbxImporter.cpp`: source mesh id, index into that
mesh's `materials[]`, and the primitive kind the chunk filters for. -/
structure MeshChunk where
  meshId : Nat
  meshMaterialIndex : Nat
  primitive : MeshPrim
deriving DecidableEq, Repr

instance : Inhabited MeshChunk := ⟨⟨0, 0, .points⟩⟩

/-- `MeshChunkMapping` from `UfbxImporter.cpp`: `{baseIndex, count}` range in
the global chunk array belonging to one source mesh. -/
structure MeshChunkMapping where
  baseIndex : Nat
  count : Nat
deriving DecidableEq, Repr

instance : Inhabited MeshChunkMapping := ⟨⟨0, 0⟩⟩

/-- Chunks appended for a single material slot `j` of mesh `meshId`, in the
textual order of the three `if(… > 0) arrayAppend(…)` statements in
`UfbxImporter::openInternal`. -/
def chunksForMaterial (meshId j : Nat) (mat : UfbxMeshMaterial) : List MeshChunk :=
  (if mat.num_point_faces > 0 then [⟨meshId, j, .points⟩] else []) ++
  (if mat.num_line_faces > 0 then [⟨meshId, j, .lines⟩] else []) ++
  (if mat.num_triangles > 0 then [⟨meshId, j, .triangles⟩] else [])

/-- Chunks appended for one source mesh: material slots in declaration order,
each producing its per-primitive-kind chunks. -/
def chunksForMesh (meshId : Nat) (mesh : UfbxMesh) : List MeshChunk :=
  mesh.materials.enum.flatMap fun jm => chunksForMaterial meshId jm.1 jm.2

/-- The chunk-building loop of `UfbxImporter::openInternal`: a fold over
`scene->meshes[]` that appends each mesh's chunks to the global array and
records `{baseIndex, count}` computed from the array size before and after. -/
def buildChunkIndex (meshes : List UfbxMesh) : List MeshChunk × List MeshChunkMapping :=
  meshes.enum.foldl
    (fun acc im =>
      let newChunks := chunksForMesh im.1 im.2
      (acc.1 ++ newChunks, acc.2 ++ [⟨acc.1.length, newChunks.length⟩]))
    ([], [])

/-- Structural description of the fold: chunk array and mapping array built
from a starting state. -/
def chunksFrom : Nat → List UfbxMesh → List MeshChunk
  | _, [] => []
  | i, m :: ms => chunksForMesh i m ++ chunksFrom (i + 1) ms

/-- Mapping entries produced from mesh index `i` onward when the chunk array
already holds `base` chunks. -/
def mappingFrom : Nat → Nat → List UfbxMesh → List MeshChunkMapping
  | _, _, [] => []
  | base, i, m :: ms =>
      ⟨base, (chunksForMesh i m).length⟩ ::
        mappingFrom (base + (chunksForMesh i m).length) (i + 1) ms

theorem buildChunkIndex_foldl_eq (ms : List UfbxMesh) :
    ∀ (i : Nat) (cs : List MeshChunk) (mp : List MeshChunkMapping),
    (ms.enumFrom i).foldl
      (fun acc im =>
        let newChunks := chunksForMesh im.1 im.2
        (acc.1 ++ newChunks, acc.2 ++ [⟨acc.1.length, newChunks.length⟩]))
      (cs, mp)
    = (cs ++ chunksFrom i ms, mp ++ mappingFrom cs.length i ms) := by
  induction ms with
  | nil => intro i cs mp; simp [chunksFrom, mappingFrom]
  | cons m ms ih =>
      intro i cs mp
      simp only [List.enumFrom, List.foldl]
      rw [ih]
      simp [chunksFrom, mappingFrom, List.append_assoc]

theorem buildChunkIndex_eq (meshes : List UfbxMesh) :
    buildChunkIndex meshes = (chunksFrom 0 meshes, mappingFrom 0 0 meshes) := by
  have h := buildChunkIndex_foldl_eq meshes 0 [] []
  simpa [buildChunkIndex, List.enum] using h

/-- Number of chunks one material slot contributes. -/
def slotChunkCount (mat : UfbxMeshMaterial) : Nat :=
  (if mat.num_point_faces > 0 then 1 else 0) +
  (if mat.num_line_faces > 0 then 1 else 0) +
  (if mat.num_triangles > 0 then 1 else 0)

theorem chunksForMaterial_length (meshId j : Nat) (mat : UfbxMeshMaterial) :
    (chunksForMaterial meshId j mat).length = slotChunkCount mat := by
  simp only [chunksForMaterial, slotChunkCount, List.length_append]
  split <;> split <;> split <;> simp

/-- Number of chunks a mesh contributes, independent of its id and position. -/
def meshChunkCount (mesh : UfbxMesh) : Nat :=
  (mesh.materials.map slotChunkCount).sum

theorem chunksForMesh_length (meshId : Nat) (mesh : UfbxMesh) :
    (chunksForMesh meshId mesh).length = meshChunkCount mesh := by
  simp only [chunksForMesh, meshChunkCount]
  generalize mesh.materials = mats
  rw [show mats.enum = mats.enumFrom 0 from rfl]
  generalize 0 = k
  induction mats generalizing k with
  | nil => simp
  | cons mat rest ih =>
      simp [List.enumFrom, chunksForMaterial_length, ih]

theorem chunksFrom_length (ms : List UfbxMesh) :
    ∀ i, (chunksFrom i ms).length = (ms.map meshChunkCount).sum := by
  induction ms with
  | nil => intro i; simp [chunksFrom]
  | cons m ms ih =>
      intro i
      simp [chunksFrom, ih, chunksForMesh_length]

theorem mappingFrom_length (ms : List UfbxMesh) :
    ∀ base i, (mappingFrom base i ms).length = ms.length := by
  induction ms with
  | nil => intro base i; simp [mappingFrom]
  | cons m ms ih => intro base i; simp [mappingFrom, ih]

/-- Sum of the chunk counts of the meshes before index `m`. -/
def chunkPrefixSum (ms : List UfbxMesh) (m : Nat) : Nat :=
  ((ms.take m).map meshChunkCount).sum

theorem mappingFrom_getD (ms : List UfbxMesh) :
    ∀ (base i m : Nat), m < ms.length →
      (mappingFrom base i ms).getD m default =
        ⟨base + chunkPrefixSum ms m, meshChunkCount (ms.getD m default)⟩ := by
  induction ms with
  | nil => intro base i m hm; simp at hm
  | cons x ms ih =>
      intro base i m hm
      cases m with
      | zero => simp [mappingFrom, chunkPrefixSum, chunksForMesh_length]
      | succ m =>
          have hm' : m < ms.length := by simpa using hm
          simp only [mappingFrom, List.getD_cons_succ, List.getD_cons_zero]
          rw [ih (base + (chunksForMesh i x).length) (i + 1) m hm']
          simp [chunkPrefixSum, chunksForMesh_length, Nat.add_assoc]

theorem chunksFrom_slice (ms : List UfbxMesh) :
    ∀ (i m : Nat), m < ms.length →
      ((chunksFrom i ms).drop (chunkPrefixSum ms m)).take
          (meshChunkCount (ms.getD m default)) =
        chunksForMesh (i + m) (ms.getD m default) := by
  induction ms with
  | nil => intro i m hm; simp at hm
  | cons x ms ih =>
      intro i m hm
      cases m with
      | zero =>
          simp only [chunkPrefixSum, List.take_zero, List.map_nil, List.sum_nil,
            List.drop_zero, List.getD_cons_zero, chunksFrom, Nat.add_zero]
          rw [← chunksForMesh_length i x]
          exact List.take_left _ _
      | succ m =>
          have hm' : m < ms.length := by simpa using hm
          have hpre : chunkPrefixSum (x :: ms) (m + 1) =
              (chunksForMesh i x).length + chunkPrefixSum ms m := by
            simp [chunkPrefixSum, chunksForMesh_length]
          simp only [chunksFrom, List.getD_cons_succ, hpre]
          rw [← List.drop_drop, List.drop_left]
          have := ih (i + 1) m hm'
          rw [this]
          congr 1
          omega

theorem of_mem_chunksForMaterial {c : MeshChunk} {meshId j : Nat}
    {mat : UfbxMeshMaterial} (h : c ∈ chunksForMaterial meshId j mat) :
    c.meshId = meshId ∧ c.meshMaterialIndex = j ∧ 0 < faceCount mat c.primitive := by
  simp only [chunksForMaterial, List.mem_append] at h
  rcases h with (h | h) | h <;> split at h <;>
    simp_all [faceCount]

/-- Strict chunk order claimed by the spec: material-slot-major,
primitive-kind-minor. -/
def chunkLt (c1 c2 : MeshChunk) : Prop :=
  c1.meshMaterialIndex < c2.meshMaterialIndex ∨
    (c1.meshMaterialIndex = c2.meshMaterialIndex ∧ c1.primitive.idx < c2.primitive.idx)

theorem pairwise_chunksForMaterial (meshId j : Nat) (mat : UfbxMeshMaterial) :
    (chunksForMaterial meshId j mat).Pairwise chunkLt := by
  unfold chunksForMaterial
  split <;> split <;> split <;>
    simp [chunkLt, MeshPrim.idx, List.Pairwise]

/-- Membership description of the chunks produced for a run of material
slots starting at slot `k`. -/
theorem mem_slotChunks {meshId : Nat} :
    ∀ (k : Nat) (mats : List UfbxMeshMaterial) (c : MeshChunk),
      c ∈ (mats.enumFrom k).flatMap (fun jm => chunksForMaterial meshId jm.1 jm.2) →
      k ≤ c.meshMaterialIndex ∧ c.meshMaterialIndex - k < mats.length ∧
        c.meshId = meshId ∧
        0 < faceCount (mats.getD (c.meshMaterialIndex - k) default) c.primitive := by
  intro k mats
  induction mats generalizing k with
  | nil => intro c hc; simp at hc
  | cons mat rest ih =>
      intro c hc
      simp only [List.enumFrom, List.flatMap_cons, List.mem_append] at hc
      rcases hc with hc | hc
      · obtain ⟨h1, h2, h3⟩ := of_mem_chunksForMaterial hc
        refine ⟨by omega, by simp [h2], h1, ?_⟩
        rw [h2]
        simpa using h3
      · obtain ⟨h1, h2, h3, h4⟩ := ih (k + 1) c hc
        have hsub : c.meshMaterialIndex - k = (c.meshMaterialIndex - (k + 1)) + 1 := by
          omega
        refine ⟨by omega, by simp only [List.length_cons]; omega, h3, ?_⟩
        rw [hsub]
        simpa using h4

theorem pairwise_slotChunks (meshId : Nat) :
    ∀ (k : Nat) (mats : List UfbxMeshMaterial),
      ((mats.enumFrom k).flatMap
        (fun jm => chunksForMaterial meshId jm.1 jm.2)).Pairwise chunkLt := by
  intro k mats
  induction mats generalizing k with
  | nil => simp
  | cons mat rest ih =>
      simp only [List.enumFrom, List.flatMap_cons]
      rw [List.pairwise_append]
      refine ⟨pairwise_chunksForMaterial meshId k mat, ih (k + 1), ?_⟩
      intro c1 h1 c2 h2
      obtain ⟨_, hj1, _⟩ := of_mem_chunksForMaterial h1
      obtain ⟨hk2, _, _, _⟩ := mem_slotChunks (k + 1) rest c2 h2
      left
      omega

theorem pairwise_chunksForMesh (meshId : Nat) (mesh : UfbxMesh) :
    (chunksForMesh meshId mesh).Pairwise chunkLt := by
  unfold chunksForMesh
  rw [show mesh.materials.enum = mesh.materials.enumFrom 0 from rfl]
  exact pairwise_slotChunks meshId 0 mesh.materials

theorem mem_chunksForMesh {meshId : Nat} {mesh : UfbxMesh} {c : MeshChunk}
    (h : c ∈ chunksForMesh meshId mesh) :
    c.meshId = meshId ∧ c.meshMaterialIndex < mesh.materials.length ∧
      0 < faceCount (mesh.materials.getD c.meshMaterialIndex default) c.primitive := by
  unfold chunksForMesh at h
  rw [show mesh.materials.enum = mesh.materials.enumFrom 0 from rfl] at h
  obtain ⟨_, h2, h3, h4⟩ := mem_slotChunks 0 mesh.materials c h
  rw [Nat.sub_zero] at h2 h4
  exact ⟨h3, h2, h4⟩

theorem count_chunksForMaterial (meshId j' j : Nat) (mat : UfbxMeshMaterial)
    (kind : MeshPrim) :
    (chunksForMaterial meshId j' mat).count (⟨meshId, j, kind⟩ : MeshChunk) =
      if j' = j ∧ 0 < faceCount mat kind then 1 else 0 := by
  by_cases hj : j' = j
  · subst hj
    unfold chunksForMaterial
    cases kind <;> split <;> split <;> split <;>
      simp_all [faceCount, List.count_append, List.count_cons, List.count_nil,
        MeshChunk.mk.injEq]
  · unfold chunksForMaterial
    cases kind <;> split <;> split <;> split <;>
      simp_all [faceCount, List.count_append, List.count_cons, List.count_nil,
        MeshChunk.mk.injEq]

theorem count_slotChunks_lt (meshId : Nat) :
    ∀ (k : Nat) (mats : List UfbxMeshMaterial) (j : Nat) (kind : MeshPrim), j < k →
      ((mats.enumFrom k).flatMap
          (fun jm => chunksForMaterial meshId jm.1 jm.2)).count
        (⟨meshId, j, kind⟩ : MeshChunk) = 0 := by
  intro k mats
  induction mats generalizing k with
  | nil => intro j kind hj; simp
  | cons mat rest ih =>
      intro j kind hj
      simp only [List.enumFrom, List.flatMap_cons, List.count_append]
      rw [count_chunksForMaterial, ih (k + 1) j kind (by omega)]
      have : ¬(k = j ∧ 0 < faceCount mat kind) := by
        rintro ⟨h, -⟩; omega
      simp [this]

theorem count_slotChunks (meshId : Nat) :
    ∀ (k : Nat) (mats : List UfbxMeshMaterial) (j : Nat) (kind : MeshPrim),
      k ≤ j → j - k < mats.length →
      ((mats.enumFrom k).flatMap
          (fun jm => chunksForMaterial meshId jm.1 jm.2)).count
        (⟨meshId, j, kind⟩ : MeshChunk) =
        if 0 < faceCount (mats.getD (j - k) default) kind then 1 else 0 := by
  intro k mats
  induction mats generalizing k with
  | nil => intro j kind h1 h2; simp at h2
  | cons mat rest ih =>
      intro j kind h1 h2
      simp only [List.length_cons] at h2
      simp only [List.enumFrom, List.flatMap_cons, List.count_append]
      rcases Nat.eq_or_lt_of_le h1 with h | h
      · subst h
        rw [count_chunksForMaterial, count_slotChunks_lt meshId (k + 1) rest k kind (by omega)]
        simp
      · have hsub : j - k = (j - (k + 1)) + 1 := by omega
        rw [count_chunksForMaterial, ih (k + 1) j kind (by omega) (by omega)]
        have : ¬(k = j ∧ 0 < faceCount mat kind) := by
          rintro ⟨hkj, -⟩; omega
        simp only [this, if_false, Nat.zero_add, hsub, List.getD_cons_succ]

theorem count_chunksForMesh (meshId : Nat) (mesh : UfbxMesh) (j : Nat)
    (kind : MeshPrim) (hj : j < mesh.materials.length) :
    (chunksForMesh meshId mesh).count (⟨meshId, j, kind⟩ : MeshChunk) =
      if 0 < faceCount (mesh.materials.getD j default) kind then 1 else 0 := by
  unfold chunksForMesh
  rw [show mesh.materials.enum = mesh.materials.enumFrom 0 from rfl]
  have := count_slotChunks meshId 0 mesh.materials j kind (Nat.zero_le j) (by simpa using hj)
  simpa using this

theorem mem_chunksFrom {c : MeshChunk} :
    ∀ (ms : List UfbxMesh) (i : Nat), c ∈ chunksFrom i ms →
      ∃ m, m < ms.length ∧ c ∈ chunksForMesh (i + m) (ms.getD m default) := by
  intro ms
  induction ms with
  | nil => intro i hc; simp [chunksFrom] at hc
  | cons x ms ih =>
      intro i hc
      simp only [chunksFrom, List.mem_append] at hc
      rcases hc with hc | hc
      · exact ⟨0, by simp, by simpa using hc⟩
      · obtain ⟨m, hm, hmem⟩ := ih (i + 1) hc
        exact ⟨m + 1, by simp only [List.length_cons]; omega,
          by simpa [Nat.add_assoc, Nat.add_comm 1 m] using hmem⟩

/-- The global chunk array built at open time (`State::meshChunks`). -/
def sceneMeshChunks (meshes : List UfbxMesh) : List MeshChunk :=
  (buildChunkIndex meshes).1

/-- The per-mesh `{baseIndex, count}` table built at open time
(`State::meshChunkMapping`). -/
def sceneChunkMapping (meshes : List UfbxMesh) : List MeshChunkMapping :=
  (buildChunkIndex meshes).2

theorem chunkPrefixSum_add_le (ms : List UfbxMesh) (m : Nat) (hm : m < ms.length) :
    chunkPrefixSum ms m + meshChunkCount (ms.getD m default) ≤
      (ms.map meshChunkCount).sum := by
  induction ms generalizing m with
  | nil => simp at hm
  | cons x ms ih =>
      cases m with
      | zero =>
          simp only [chunkPrefixSum, List.take_zero, List.map_nil, List.sum_nil,
            List.getD_cons_zero, List.map_cons, List.sum_cons, Nat.zero_add]
          exact Nat.le_add_right _ _
      | succ m =>
          have hm' : m < ms.length := by simpa using hm
          have := ih m hm'
          simp only [chunkPrefixSum, List.take_succ_cons, List.map_cons, List.sum_cons,
            List.getD_cons_succ] at *
          omega

theorem chunksFrom_getD (ms : List UfbxMesh) :
    ∀ (i m k : Nat), m < ms.length → k < meshChunkCount (ms.getD m default) →
      (chunksFrom i ms).getD (chunkPrefixSum ms m + k) default =
        (chunksForMesh (i + m) (ms.getD m default)).getD k default := by
  induction ms with
  | nil => intro i m k hm; simp at hm
  | cons x ms ih =>
      intro i m k hm hk
      cases m with
      | zero =>
          simp only [chunkPrefixSum, List.take_zero, List.map_nil, List.sum_nil,
            List.getD_cons_zero, chunksFrom, Nat.zero_add, Nat.add_zero] at *
          rw [List.getD_append]
          rw [chunksForMesh_length]
          exact hk
      | succ m =>
          have hm' : m < ms.length := by simpa using hm
          simp only [List.getD_cons_succ] at hk
          have hpre : chunkPrefixSum (x :: ms) (m + 1) =
              (chunksForMesh i x).length + chunkPrefixSum ms m := by
            simp [chunkPrefixSum, chunksForMesh_length]
          simp only [chunksFrom, List.getD_cons_succ, hpre]
          rw [Nat.add_assoc,
            List.getD_append_right _ _ _ _ (Nat.le_add_right _ _),
            Nat.add_sub_cancel_left]
          rw [ih (i + 1) m k hm' hk]
          congr 2
          omega

/-- Claim C2: the chunk index built at open time contains, contiguously and
located by its `{baseIndex, count}` pair, exactly one chunk per
(material slot, primitive kind) combination with a non-zero face count;
chunks of one mesh are ordered material-slot-major, primitive-kind-minor with
kinds ordered points, lines, triangles; and no chunk with zero faces is ever
created. -/
theorem claim_C2 (meshes : List UfbxMesh) (m : Nat) (hm : m < meshes.length) :
    (sceneChunkMapping meshes).length = meshes.length ∧
    ((sceneMeshChunks meshes).drop
          ((sceneChunkMapping meshes).getD m default).baseIndex).take
        ((sceneChunkMapping meshes).getD m default).count
      = chunksForMesh m (meshes.getD m default) ∧
    (∀ j < (meshes.getD m default).materials.length, ∀ kind : MeshPrim,
      (chunksForMesh m (meshes.getD m default)).count (⟨m, j, kind⟩ : MeshChunk) =
        if 0 < faceCount ((meshes.getD m default).materials.getD j default) kind
        then 1 else 0) ∧
    (chunksForMesh m (meshes.getD m default)).Pairwise chunkLt ∧
    ∀ c ∈ sceneMeshChunks meshes,
      0 < faceCount
        ((meshes.getD c.meshId default).materials.getD c.meshMaterialIndex default)
        c.primitive := by
  have hb := buildChunkIndex_eq meshes
  have hmap : sceneChunkMapping meshes = mappingFrom 0 0 meshes := by
    simp [sceneChunkMapping, hb]
  have hchunks : sceneMeshChunks meshes = chunksFrom 0 meshes := by
    simp [sceneMeshChunks, hb]
  refine ⟨?_, ?_, ?_, ?_, ?_⟩
  · rw [hmap, mappingFrom_length]
  · rw [hmap, hchunks, mappingFrom_getD meshes 0 0 m hm]
    have := chunksFrom_slice meshes 0 m hm
    simpa using this
  · intro j hj kind
    exact count_chunksForMesh m (meshes.getD m default) j kind hj
  · exact pairwise_chunksForMesh m (meshes.getD m default)
  · intro c hc
    rw [hchunks] at hc
    obtain ⟨m', hm', hmem⟩ := mem_chunksFrom meshes 0 hc
    obtain ⟨hid, hslot, hpos⟩ := mem_chunksForMesh hmem
    rw [Nat.zero_add] at hid
    rw [hid]
    exact hpos

/-- A small two-slot mesh used to witness claims about the chunk index:
slot 0 has two triangles, slot 1 has one point face and five triangles. -/
def w2meshes : List UfbxMesh :=
  [⟨[⟨Option.some 3, 0, 0, 2⟩, ⟨Option.none, 1, 0, 5⟩], 2, false⟩]

theorem claim_C2_witness :
    0 < w2meshes.length ∧
    ((sceneChunkMapping w2meshes).length = w2meshes.length ∧
    ((sceneMeshChunks w2meshes).drop
          ((sceneChunkMapping w2meshes).getD 0 default).baseIndex).take
        ((sceneChunkMapping w2meshes).getD 0 default).count
      = chunksForMesh 0 (w2meshes.getD 0 default) ∧
    (∀ j < (w2meshes.getD 0 default).materials.length, ∀ kind : MeshPrim,
      (chunksForMesh 0 (w2meshes.getD 0 default)).count (⟨0, j, kind⟩ : MeshChunk) =
        if 0 < faceCount ((w2meshes.getD 0 default).materials.getD j default) kind
        then 1 else 0) ∧
    (chunksForMesh 0 (w2meshes.getD 0 default)).Pairwise chunkLt ∧
    ∀ c ∈ sceneMeshChunks w2meshes,
      0 < faceCount
        ((w2meshes.getD c.meshId default).materials.getD c.meshMaterialIndex default)
        c.primitive) :=
  ⟨by decide, claim_C2 w2meshes 0 (by decide)⟩

/-- `typedId` from `UfbxImporter.cpp`: the element's typed id, or `-1` for a
null reference. -/
def typedId (m : Option Nat) : Int :=
  match m with
  | Option.some id => (id : Int)
  | Option.none => -1

/-- One row of the mesh-instance table emitted by `UfbxImporter::doScene`:
`meshMaterialObjects`, `meshes` and `meshMaterials` entries. -/
structure MeshInstanceRecord where
  objectId : Nat
  chunkIndex : Nat
  materialId : Int
deriving DecidableEq, Repr

instance : Inhabited MeshInstanceRecord := ⟨⟨0, 0, -1⟩⟩

/-- The inner chunk loop of `UfbxImporter::doScene` for one node and one
attached mesh: one record per chunk of the mesh's chunk range; the material
is looked up on the node at the running per-chunk counter `materialIndex`
(which equals the loop index), falling back to the slot's declared
material. -/
def meshRecordsFor (chunks : List MeshChunk) (mapping : List MeshChunkMapping)
    (meshes : List UfbxMesh) (nodeId : Nat) (nodeMaterials : List Nat)
    (meshId : Nat) : List MeshInstanceRecord :=
  let mp := mapping.getD meshId default
  (List.range mp.count).map fun i =>
    let chunkIndex := mp.baseIndex + i
    let chunk := chunks.getD chunkIndex default
    let mat := (meshes.getD meshId default).materials.getD chunk.meshMaterialIndex default
    let material : Option Nat :=
      if i < nodeMaterials.length then Option.some (nodeMaterials.getD i 0)
      else mat.material
    ⟨nodeId, chunkIndex, typedId material⟩

/-- Modelled from the claim's words, for comparison with the code: the
material claim C1 predicts for a chunk — the override the node declares for
the chunk's material slot when it has one, else the chunk's declared
material, else `-1`. -/
def slotOverrideMaterialId (nodeMaterials : List Nat) (mesh : UfbxMesh)
    (chunk : MeshChunk) : Int :=
  if chunk.meshMaterialIndex < nodeMaterials.length then
    ((nodeMaterials.getD chunk.meshMaterialIndex 0 : Nat) : Int)
  else typedId (mesh.materials.getD chunk.meshMaterialIndex default).material

/-- A mesh whose single material slot holds both line and triangle faces, so
its two chunks share material slot 0. -/
def w1meshes : List UfbxMesh :=
  [⟨[⟨Option.some 9, 0, 1, 1⟩], 1, false⟩]

/-- Claim C1 counterexample: with a mesh whose single material slot 0 yields
two chunks (lines and triangles) and a node overriding materials `[5, 7]`,
the second emitted record carries material 7 — the override at the chunk's
position in the chunk range — while the claim predicts the slot-0 override 5
for both chunks. -/
theorem claim_C1_counterexample :
    ((meshRecordsFor (buildChunkIndex w1meshes).1 (buildChunkIndex w1meshes).2
        w1meshes 0 [5, 7] 0).getD 1 default).materialId ≠
      slotOverrideMaterialId [5, 7] (w1meshes.getD 0 default)
        ((buildChunkIndex w1meshes).1.getD 1 default) := by decide

/-- Claim C1 (amended): the recorded material id of the `i`-th record of a
node's mesh attachment is the node's override at the chunk's *position* `i`
in the mesh's chunk range when the node declares at least `i + 1` materials,
and otherwise the declared material of the chunk's material slot (or `-1`
when that is null); the record points at chunk `baseIndex + i`, which is the
`i`-th chunk the mesh produced. -/
theorem claim_C1 (meshes : List UfbxMesh) (nodeId : Nat) (nodeMaterials : List Nat)
    (meshId i : Nat) (hm : meshId < meshes.length)
    (hi : i < ((sceneChunkMapping meshes).getD meshId default).count) :
    (meshRecordsFor (sceneMeshChunks meshes) (sceneChunkMapping meshes) meshes
        nodeId nodeMaterials meshId).getD i default =
      ⟨nodeId,
       ((sceneChunkMapping meshes).getD meshId default).baseIndex + i,
       if i < nodeMaterials.length then ((nodeMaterials.getD i 0 : Nat) : Int)
       else typedId (((meshes.getD meshId default).materials.getD
           ((chunksForMesh meshId (meshes.getD meshId default)).getD i
             default).meshMaterialIndex default).material)⟩ ∧
    (sceneMeshChunks meshes).getD
        (((sceneChunkMapping meshes).getD meshId default).baseIndex + i) default =
      (chunksForMesh meshId (meshes.getD meshId default)).getD i default := by
  have hb := buildChunkIndex_eq meshes
  have hmap : sceneChunkMapping meshes = mappingFrom 0 0 meshes := by
    simp [sceneChunkMapping, hb]
  have hchunks : sceneMeshChunks meshes = chunksFrom 0 meshes := by
    simp [sceneMeshChunks, hb]
  have hgetmap : (sceneChunkMapping meshes).getD meshId default =
      ⟨chunkPrefixSum meshes meshId, meshChunkCount (meshes.getD meshId default)⟩ := by
    rw [hmap]
    simpa using mappingFrom_getD meshes 0 0 meshId hm
  rw [hgetmap] at hi ⊢
  simp only at hi ⊢
  have hchunkAt : (sceneMeshChunks meshes).getD
      (chunkPrefixSum meshes meshId + i) default =
      (chunksForMesh meshId (meshes.getD meshId default)).getD i default := by
    rw [hchunks]
    have := chunksFrom_getD meshes 0 meshId i hm hi
    simpa using this
  refine ⟨?_, hchunkAt⟩
  simp only [meshRecordsFor, hgetmap]
  rw [List.getD_eq_getElem _ _ (by simpa using hi)]
  rw [List.getElem_map, List.getElem_range]
  simp only [hchunkAt]
  split <;> simp [typedId]

theorem claim_C1_witness :
    (0 < w1meshes.length ∧
      1 < ((sceneChunkMapping w1meshes).getD 0 default).count) ∧
    ((meshRecordsFor (sceneMeshChunks w1meshes) (sceneChunkMapping w1meshes)
        w1meshes 0 [5, 7] 0).getD 1 default =
      ⟨0,
       ((sceneChunkMapping w1meshes).getD 0 default).baseIndex + 1,
       if 1 < ([5, 7] : List Nat).length then ((([5, 7] : List Nat).getD 1 0 : Nat) : Int)
       else typedId (((w1meshes.getD 0 default).materials.getD
           ((chunksForMesh 0 (w1meshes.getD 0 default)).getD 1
             default).meshMaterialIndex default).material)⟩ ∧
    (sceneMeshChunks w1meshes).getD
        (((sceneChunkMapping w1meshes).getD 0 default).baseIndex + 1) default =
      (chunksForMesh 0 (w1meshes.getD 0 default)).getD 1 default) :=
  ⟨⟨by decide, by decide⟩, claim_C1 w1meshes 0 [5, 7] 0 1 (by decide) (by decide)⟩

/-- An element attached to a node via `ufbx_node::all_attribs`, dispatched by
the `ufbx_as_mesh` / `ufbx_as_light` / `ufbx_as_camera` chain in
`UfbxImporter::doScene` (`other` covers element types none of those match). -/
inductive UfbxElement where
  | mesh (id : Nat)
  | light (id : Nat)
  | camera (id : Nat)
  | other
deriving DecidableEq, Repr

/-- A source node (`ufbx_node`): parent typed id, root flag, attached
elements and per-node instance materials (`ufbx_node::materials`). Node ids
(`typed_id`) are positions in the scene's node array. -/
structure UfbxNode where
  parent : Option Nat
  is_root : Bool
  attribs : List UfbxElement
  materials : List Nat
deriving DecidableEq, Repr

instance : Inhabited UfbxNode := ⟨⟨Option.none, false, [], []⟩⟩

/-- `State::objectCount` as computed in `UfbxImporter::openInternal`: the
source node count, minus one when the root is not preserved. -/
def objectCountOf (nodes : List UfbxNode) (preserveRoot : Bool) : Nat :=
  if preserveRoot then nodes.length else nodes.length - 1

/-- `State::nodeIdOffset` as computed in `UfbxImporter::openInternal`. -/
def nodeIdOffsetOf (preserveRoot : Bool) : Nat :=
  if preserveRoot then 0 else 1

/-- The parent entry `UfbxImporter::doScene` stores for a retained node:
the parent's typed id minus the offset when the parent is retained, `-1`
otherwise. -/
def parentEntry (nodes : List UfbxNode) (preserveRoot : Bool) (offset : Nat)
    (n : UfbxNode) : Int :=
  match n.parent with
  | Option.some p =>
      if preserveRoot || !(nodes.getD p default).is_root then
        (p : Int) - (offset : Int)
      else -1
  | Option.none => -1

/-- The parent-filling part of the node loop in `UfbxImporter::doScene`,
modelled as successive writes at `typed_id - offset` into the
(uninitialized) `parents` array; nodes elided by `continue` write nothing. -/
def fillParentsLoop (nodes : List UfbxNode) (preserveRoot : Bool) (offset : Nat) :
    List (Nat × UfbxNode) → (Nat → Int) → (Nat → Int)
  | [], acc => acc
  | (i, n) :: rest, acc =>
      fillParentsLoop nodes preserveRoot offset rest
        (if !preserveRoot && n.is_root then acc
         else fun o =>
           if o = i - offset then parentEntry nodes preserveRoot offset n else acc o)

/-- The complete `parents` array of the scene query, as a function of the
object id; unwritten slots keep the junk value `nodes.length` (a deliberately
out-of-range stand-in for the uninitialized allocation). -/
def fillParents (nodes : List UfbxNode) (preserveRoot : Bool) : Nat → Int :=
  fillParentsLoop nodes preserveRoot (nodeIdOffsetOf preserveRoot) nodes.enum
    (fun _ => (nodes.length : Int))

theorem fillParentsLoop_eval (nodes : List UfbxNode) :
    ∀ (l : List UfbxNode) (k : Nat) (acc : Nat → Int) (o : Nat),
      (∀ j < l.length, (l.getD j default).is_root = false) →
      1 ≤ k →
      fillParentsLoop nodes false 1 (l.enumFrom k) acc o =
        if k ≤ o + 1 ∧ o + 1 < k + l.length then
          parentEntry nodes false 1 (l.getD (o + 1 - k) default)
        else acc o := by
  intro l
  induction l with
  | nil =>
      intro k acc o hroot hk
      simp only [List.enumFrom, fillParentsLoop, List.length_nil]
      rw [if_neg (by omega)]
  | cons n ns ih =>
      intro k acc o hroot hk
      have hn : n.is_root = false := by
        have := hroot 0 (by simp)
        simpa using this
      simp only [List.enumFrom, fillParentsLoop]
      rw [if_neg (by simp [hn])]
      rw [ih (k + 1) _ o (fun j hj => by
          have := hroot (j + 1) (by simpa using Nat.succ_lt_succ hj)
          simpa using this) (by omega)]
      by_cases h1 : k + 1 ≤ o + 1 ∧ o + 1 < k + 1 + ns.length
      · have h2 : k ≤ o + 1 ∧ o + 1 < k + (n :: ns).length := by
          simp only [List.length_cons]; omega
        rw [if_pos h1, if_pos h2]
        have hsub : o + 1 - k = (o + 1 - (k + 1)) + 1 := by omega
        rw [hsub, List.getD_cons_succ]
      · rw [if_neg h1]
        show (if o = k - 1 then parentEntry nodes false 1 n else acc o) = _
        by_cases h2 : k ≤ o + 1 ∧ o + 1 < k + (n :: ns).length
        · have ho : o + 1 = k := by
            simp only [List.length_cons] at h2
            omega
          rw [if_pos h2]
          have hoo : o = k - 1 := by omega
          rw [if_pos hoo, ho, Nat.sub_self, List.getD_cons_zero]
        · rw [if_neg h2]
          have hne : ¬(o = k - 1) := by
            simp only [List.length_cons] at h2
            omega
          rw [if_neg hne]

theorem fillParents_eval (nodes : List UfbxNode) (h0 : 0 < nodes.length)
    (hroot : ∀ i < nodes.length, ((nodes.getD i default).is_root = true) ↔ i = 0)
    (o : Nat) (ho : o < objectCountOf nodes false) :
    fillParents nodes false o =
      parentEntry nodes false 1 (nodes.getD (o + 1) default) := by
  cases nodes with
  | nil => simp at h0
  | cons n0 rest =>
      have hn0 : n0.is_root = true := by
        have := (hroot 0 (by simp)).mpr rfl
        simpa using this
      have hrest : ∀ j < rest.length, (rest.getD j default).is_root = false := by
        intro j hj
        have := hroot (j + 1) (by simp only [List.length_cons]; omega)
        simp only [List.getD_cons_succ] at this
        rcases h : (rest.getD j default).is_root with _ | _
        · rfl
        · exact absurd (this.mp h) (by omega)
      have hcount : objectCountOf (n0 :: rest) false = rest.length := by
        simp [objectCountOf]
      rw [hcount] at ho
      unfold fillParents
      rw [show nodeIdOffsetOf false = 1 from rfl]
      rw [show (n0 :: rest).enum = (0, n0) :: rest.enumFrom 1 from rfl]
      simp only [fillParentsLoop]
      rw [if_pos (by simp [hn0])]
      rw [fillParentsLoop_eval (n0 :: rest) rest 1 _ o hrest (le_refl 1)]
      rw [if_pos (by omega)]
      simp only [Nat.add_sub_cancel, List.getD_cons_succ]

/-- Claim C3: with the root not retained, `objectCount` is the source node
count minus one, the id offset is one (so a retained node's object id is its
source id minus one), every parent entry is `-1` or a valid object id of a
retained (non-root) node, and nodes parented to the elided root get `-1`. -/
theorem claim_C3 (nodes : List UfbxNode)
    (h0 : 0 < nodes.length)
    (hroot : ∀ i < nodes.length, ((nodes.getD i default).is_root = true) ↔ i = 0)
    (hparent : ∀ i < nodes.length, 0 < i →
      (nodes.getD i default).parent.isSome = true ∧
      (nodes.getD i default).parent.getD nodes.length < nodes.length) :
    objectCountOf nodes false = nodes.length - 1 ∧
    nodeIdOffsetOf false = 1 ∧
    ∀ o < objectCountOf nodes false,
      fillParents nodes false o =
        parentEntry nodes false 1 (nodes.getD (o + 1) default) ∧
      (fillParents nodes false o = -1 ∨
        (0 ≤ fillParents nodes false o ∧
          fillParents nodes false o < (objectCountOf nodes false : Int) ∧
          (nodes.getD ((fillParents nodes false o).toNat + 1) default).is_root
            = false)) ∧
      ((nodes.getD (o + 1) default).parent = Option.some 0 →
        fillParents nodes false o = -1) := by
  refine ⟨rfl, rfl, ?_⟩
  intro o ho
  have heval := fillParents_eval nodes h0 hroot o ho
  have hcount : objectCountOf nodes false = nodes.length - 1 := rfl
  have hroot0 : (nodes.getD 0 default).is_root = true := (hroot 0 h0).mpr rfl
  have hio : o + 1 < nodes.length := by
    rw [hcount] at ho
    omega
  obtain ⟨hps, hpb⟩ := hparent (o + 1) hio (by omega)
  obtain ⟨p, hp⟩ := Option.isSome_iff_exists.mp hps
  have hplt : p < nodes.length := by
    rw [hp] at hpb
    simpa using hpb
  have hmatch : parentEntry nodes false 1 (nodes.getD (o + 1) default) =
      if (false || !(nodes.getD p default).is_root) = true then (p : Int) - (1 : Nat)
      else -1 := by
    unfold parentEntry
    rw [hp]
  refine ⟨heval, ?_, ?_⟩
  · rw [heval, hmatch]
    by_cases hpr : (nodes.getD p default).is_root = true
    · rw [if_neg (by rw [hpr]; simp)]
      left
      rfl
    · have hprf : (nodes.getD p default).is_root = false := by
        simpa using hpr
      rw [if_pos (by rw [hprf]; simp)]
      right
      have hp0 : p ≠ 0 := by
        intro h
        exact hpr (by rw [h]; exact hroot0)
      refine ⟨by push_cast; omega, by rw [hcount]; push_cast; omega, ?_⟩
      have htn : ((p : Int) - (1 : Nat)).toNat + 1 = p := by
        push_cast
        omega
      rw [htn]
      simpa using hpr
  · intro hpz
    have hpeq : p = 0 := by
      rw [hp] at hpz
      simpa using hpz
    rw [heval, hmatch, hpeq]
    rw [if_neg (by rw [hroot0]; simp)]

/-- A three-node scene (root plus a chain of two) used to witness the
flattening claims. -/
def w3nodes : List UfbxNode :=
  [⟨Option.none, true, [], []⟩,
   ⟨Option.some 0, false, [], []⟩,
   ⟨Option.some 1, false, [], []⟩]

theorem claim_C3_witness :
    (0 < w3nodes.length ∧
      (∀ i < w3nodes.length,
        ((w3nodes.getD i default).is_root = true) ↔ i = 0) ∧
      (∀ i < w3nodes.length, 0 < i →
        (w3nodes.getD i default).parent.isSome = true ∧
        (w3nodes.getD i default).parent.getD w3nodes.length < w3nodes.length)) ∧
    (objectCountOf w3nodes false = w3nodes.length - 1 ∧
    nodeIdOffsetOf false = 1 ∧
    ∀ o < objectCountOf w3nodes false,
      fillParents w3nodes false o =
        parentEntry w3nodes false 1 (w3nodes.getD (o + 1) default) ∧
      (fillParents w3nodes false o = -1 ∨
        (0 ≤ fillParents w3nodes false o ∧
          fillParents w3nodes false o < (objectCountOf w3nodes false : Int) ∧
          (w3nodes.getD ((fillParents w3nodes false o).toNat + 1) default).is_root
            = false)) ∧
      ((w3nodes.getD (o + 1) default).parent = Option.some 0 →
        fillParents w3nodes false o = -1)) :=
  ⟨⟨by decide, by decide, by decide⟩,
    claim_C3 w3nodes (by decide) (by decide) (by decide)⟩

/-- A parsed ufbx scene as consumed by the scene query: nodes with attached
elements, meshes, and the per-light / per-camera instance counts
(`ufbx_light::instances.count`, `ufbx_camera::instances.count`). -/
structure UfbxScene where
  nodes : List UfbxNode
  meshes : List UfbxMesh
  lightInstanceCounts : List Nat
  cameraInstanceCounts : List Nat
deriving Repr

/-- The mesh-instance counting pass of `UfbxImporter::doScene`:
`meshCount += instanceCount * chunkCount` over all meshes. -/
def countedMeshInstances (s : UfbxScene) : Nat :=
  s.meshes.enum.foldl
    (fun acc im =>
      acc + im.2.instanceCount * ((sceneChunkMapping s.meshes).getD im.1 default).count)
    0

/-- The light counting pass: `lightCount += light->instances.count`. -/
def countedLightInstances (s : UfbxScene) : Nat :=
  s.lightInstanceCounts.foldl (fun acc c => acc + c) 0

/-- The camera counting pass: `cameraCount += camera->instances.count`. -/
def countedCameraInstances (s : UfbxScene) : Nat :=
  s.cameraInstanceCounts.foldl (fun acc c => acc + c) 0

/-- Mesh records one node contributes in the fill pass: for each attached
mesh element, one record per chunk of the mesh's chunk range. -/
def nodeMeshRecords (chunks : List MeshChunk) (mapping : List MeshChunkMapping)
    (meshes : List UfbxMesh) (nodeId : Nat) (node : UfbxNode) :
    List MeshInstanceRecord :=
  node.attribs.flatMap fun e =>
    match e with
    | UfbxElement.mesh id => meshRecordsFor chunks mapping meshes nodeId node.materials id
    | _ => []

/-- Light records one node contributes in the fill pass. -/
def nodeLightRecords (nodeId : Nat) (node : UfbxNode) : List (Nat × Nat) :=
  node.attribs.flatMap fun e =>
    match e with
    | UfbxElement.light id => [(nodeId, id)]
    | _ => []

/-- Camera records one node contributes in the fill pass. -/
def nodeCameraRecords (nodeId : Nat) (node : UfbxNode) : List (Nat × Nat) :=
  node.attribs.flatMap fun e =>
    match e with
    | UfbxElement.camera id => [(nodeId, id)]
    | _ => []

/-- The fill pass of `UfbxImporter::doScene`: iterate nodes in source order,
skip the root when it is not preserved, and append each node's mesh, light
and camera records to the respective tables. -/
def sceneFill (s : UfbxScene) (preserveRoot : Bool) :
    List MeshInstanceRecord × List (Nat × Nat) × List (Nat × Nat) :=
  s.nodes.enum.foldl
    (fun acc iN =>
      if !preserveRoot && iN.2.is_root then acc
      else
        (acc.1 ++ nodeMeshRecords (sceneMeshChunks s.meshes) (sceneChunkMapping s.meshes)
            s.meshes (iN.1 - nodeIdOffsetOf preserveRoot) iN.2,
         acc.2.1 ++ nodeLightRecords (iN.1 - nodeIdOffsetOf preserveRoot) iN.2,
         acc.2.2 ++ nodeCameraRecords (iN.1 - nodeIdOffsetOf preserveRoot) iN.2))
    ([], [], [])

/-- Projection of an attached element to the mesh id it references. -/
def meshSel : UfbxElement → Option Nat
  | UfbxElement.mesh id => Option.some id
  | _ => Option.none

/-- Projection of an attached element to the light id it references. -/
def lightSel : UfbxElement → Option Nat
  | UfbxElement.light id => Option.some id
  | _ => Option.none

/-- Projection of an attached element to the camera id it references. -/
def cameraSel : UfbxElement → Option Nat
  | UfbxElement.camera id => Option.some id
  | _ => Option.none

theorem foldl_add_eq_sum {α : Type} (g : α → Nat) :
    ∀ (l : List α) (a : Nat),
      l.foldl (fun acc x => acc + g x) a = a + (l.map g).sum := by
  intro l
  induction l with
  | nil => intro a; simp
  | cons x xs ih => intro a; simp [ih, Nat.add_assoc]

theorem enumFrom_map_sum {α : Type} [Inhabited α] (f : Nat → α → Nat) :
    ∀ (l : List α) (k : Nat),
      ((l.enumFrom k).map (fun im => f im.1 im.2)).sum =
        ∑ m ∈ Finset.range l.length, f (k + m) (l.getD m default) := by
  intro l
  induction l with
  | nil => intro k; simp
  | cons x xs ih =>
      intro k
      rw [List.length_cons, Finset.sum_range_succ']
      simp only [List.enumFrom, List.map_cons, List.sum_cons, List.getD_cons_succ,
        List.getD_cons_zero, Nat.add_zero]
      rw [ih (k + 1)]
      have : ∀ m, k + 1 + m = k + (m + 1) := by omega
      simp only [this]
      omega

theorem list_sum_getD (l : List Nat) :
    l.sum = ∑ m ∈ Finset.range l.length, l.getD m 0 := by
  induction l with
  | nil => simp
  | cons x xs ih =>
      rw [List.length_cons, Finset.sum_range_succ']
      simp [ih]
      omega

theorem count_weight_sum (c : Nat → Nat) (M : Nat) :
    ∀ (l : List (Option Nat)), (∀ id, Option.some id ∈ l → id < M) →
      ∑ m ∈ Finset.range M, l.count (Option.some m) * c m =
        (l.map (fun o => match o with
          | Option.some id => c id
          | Option.none => 0)).sum := by
  intro l
  induction l with
  | nil => intro hb; simp
  | cons o rest ih =>
      intro hb
      have hrest : ∀ id, Option.some id ∈ rest → id < M := by
        intro id hid
        exact hb id (List.mem_cons_of_mem _ hid)
      simp only [List.count_cons, List.map_cons, List.sum_cons, Nat.add_mul,
        Finset.sum_add_distrib]
      rw [ih hrest]
      rw [Nat.add_comm]
      congr 1
      cases o with
      | none =>
          simp
      | some id =>
          have hid : id < M := hb id (List.mem_cons_self _ _)
          have : ∀ m, (if (Option.some id == Option.some m) = true then 1 else 0) * c m
              = if m = id then c m else 0 := by
            intro m
            by_cases h : m = id
            · subst h; simp
            · simp only [beq_iff_eq, Option.some.injEq]
              rw [if_neg (fun hh => h hh.symm), if_neg h]
              simp
          calc ∑ m ∈ Finset.range M,
                (if (Option.some id == Option.some m) = true then 1 else 0) * c m
              = ∑ m ∈ Finset.range M, if m = id then c m else 0 := by
                exact Finset.sum_congr rfl (fun m _ => this m)
            _ = c id := by
                rw [Finset.sum_ite_eq' (Finset.range M) id c]
                simp [Finset.mem_range, hid]

theorem filter_map_sum_eq {α : Type} (f : α → Nat) (P : α → Bool) :
    ∀ (l : List α), (∀ x ∈ l, P x = true → f x = 0) →
      ((l.filter (fun x => !P x)).map f).sum = (l.map f).sum := by
  intro l
  induction l with
  | nil => intro hz; simp
  | cons x xs ih =>
      intro hz
      have hxs : ∀ y ∈ xs, P y = true → f y = 0 := by
        intro y hy
        exact hz y (List.mem_cons_of_mem _ hy)
      by_cases hx : P x = true
      · rw [List.filter_cons, if_neg (by simp [hx])]
        rw [ih hxs]
        simp [hz x (List.mem_cons_self _ _) hx]
      · rw [List.filter_cons, if_pos (by simp at hx ⊢; exact hx)]
        simp [ih hxs]

theorem foldl_triple_filter {α β γ δ : Type} (P : α → Bool)
    (f : α → List β) (g : α → List γ) (h : α → List δ) :
    ∀ (l : List α) (a : List β) (b : List γ) (c : List δ),
      l.foldl (fun acc x => if P x then acc
        else (acc.1 ++ f x, acc.2.1 ++ g x, acc.2.2 ++ h x)) (a, b, c) =
      (a ++ (l.filter (fun x => !P x)).flatMap f,
       b ++ (l.filter (fun x => !P x)).flatMap g,
       c ++ (l.filter (fun x => !P x)).flatMap h) := by
  intro l
  induction l with
  | nil => intro a b c; simp
  | cons x xs ih =>
      intro a b c
      by_cases hx : P x = true
      · rw [List.foldl_cons, if_pos hx, ih, List.filter_cons,
          if_neg (by simp [hx])]
      · rw [List.foldl_cons, if_neg (by simp_all), ih, List.filter_cons,
          if_pos (by simp_all)]
        simp [List.append_assoc]

theorem enum_snd_map_filter {α β : Type} (Q : α → Bool) (g : α → β) :
    ∀ (l : List α) (k : Nat),
      ((l.enumFrom k).filter (fun iN => Q iN.2)).map (fun iN => g iN.2) =
        (l.filter Q).map g := by
  intro l
  induction l with
  | nil => intro k; simp
  | cons x xs ih =>
      intro k
      by_cases hx : Q x = true
      · simp only [List.enumFrom, List.filter_cons, hx, if_pos, List.map_cons]
        rw [ih (k + 1)]
      · simp only [List.enumFrom]
        rw [List.filter_cons, if_neg (by simp_all), List.filter_cons,
          if_neg (by simp_all)]
        exact ih (k + 1)

theorem meshRecordsFor_length (chunks : List MeshChunk)
    (mapping : List MeshChunkMapping) (meshes : List UfbxMesh)
    (nodeId : Nat) (nodeMaterials : List Nat) (meshId : Nat) :
    (meshRecordsFor chunks mapping meshes nodeId nodeMaterials meshId).length =
      (mapping.getD meshId default).count := by
  simp [meshRecordsFor]

theorem nodeMeshRecords_length (chunks : List MeshChunk)
    (mapping : List MeshChunkMapping) (meshes : List UfbxMesh)
    (nodeId : Nat) (node : UfbxNode) :
    (nodeMeshRecords chunks mapping meshes nodeId node).length =
      ((node.attribs.map meshSel).map (fun o => match o with
        | Option.some id => (mapping.getD id default).count
        | Option.none => 0)).sum := by
  unfold nodeMeshRecords
  rw [List.length_flatMap, List.map_map]
  congr 1
  apply List.map_congr_left
  intro e he
  cases e <;> simp [meshSel, meshRecordsFor_length]

theorem nodeLightRecords_length (nodeId : Nat) (node : UfbxNode) :
    (nodeLightRecords nodeId node).length =
      ((node.attribs.map lightSel).map (fun o => match o with
        | Option.some _ => 1
        | Option.none => 0)).sum := by
  unfold nodeLightRecords
  rw [List.length_flatMap, List.map_map]
  congr 1
  apply List.map_congr_left
  intro e he
  cases e <;> simp [lightSel]

theorem nodeCameraRecords_length (nodeId : Nat) (node : UfbxNode) :
    (nodeCameraRecords nodeId node).length =
      ((node.attribs.map cameraSel).map (fun o => match o with
        | Option.some _ => 1
        | Option.none => 0)).sum := by
  unfold nodeCameraRecords
  rw [List.length_flatMap, List.map_map]
  congr 1
  apply List.map_congr_left
  intro e he
  cases e <;> simp [cameraSel]

theorem list_mul_swap {α : Type} (M : Nat) (c : Nat → Nat) (cnt : α → Nat → Nat) :
    ∀ (l : List α),
      ∑ m ∈ Finset.range M, (l.map (fun n => cnt n m)).sum * c m =
        (l.map (fun n => ∑ m ∈ Finset.range M, cnt n m * c m)).sum := by
  intro l
  induction l with
  | nil => simp
  | cons x xs ih =>
      simp only [List.map_cons, List.sum_cons, Nat.add_mul, Finset.sum_add_distrib, ih]

/-- The per-category fill-pass total for one channel: record-list lengths
summed over the retained nodes, rewritten as a double sum over all nodes and
category items. -/
theorem channel_total {sel : UfbxElement → Option Nat} (c : Nat → Nat) (M : Nat)
    (nodes : List UfbxNode)
    (hroot : ∀ n ∈ nodes, n.is_root = true → n.attribs = [])
    (hids : ∀ n ∈ nodes, ∀ id, Option.some id ∈ n.attribs.map sel → id < M) :
    ((nodes.filter (fun n => !n.is_root)).map
        (fun n => ((n.attribs.map sel).map (fun o => match o with
          | Option.some id => c id
          | Option.none => 0)).sum)).sum =
      ∑ m ∈ Finset.range M,
        (nodes.map (fun n => (n.attribs.map sel).count (Option.some m))).sum * c m := by
  rw [filter_map_sum_eq _ _ nodes (by
    intro n hn hr
    rw [hroot n hn hr]
    simp)]
  rw [list_mul_swap M c (fun n m => (n.attribs.map sel).count (Option.some m)) nodes]
  congr 1
  apply List.map_congr_left
  intro n hn
  exact (count_weight_sum c M (n.attribs.map sel) (hids n hn)).symm

end UfbxModel

namespace GltfModel

/-- A glTF node as consumed by `CgltfImporter::doScene`: an optional attached
mesh (its index plus the per-primitive material references), and optional
light, camera and skin references. -/
structure GltfNode where
  meshPrims : Option (Nat × List (Option Nat))
  light : Option Nat
  camera : Option Nat
  skin : Option Nat
deriving DecidableEq, Repr

instance : Inhabited GltfNode :=
  ⟨⟨Option.none, Option.none, Option.none, Option.none⟩⟩

/-- The mesh counting pass of `CgltfImporter::doScene`:
`meshCount += node.mesh->primitives_count` over the gathered objects. -/
def gltfCountMeshes (nodes : List GltfNode) (objects : List Nat) : Nat :=
  objects.foldl
    (fun acc i =>
      acc + (match (nodes.getD i default).meshPrims with
             | Option.some mp => mp.2.length
             | Option.none => 0)) 0

/-- The light counting pass: `if(node.light) ++lightCount`. -/
def gltfCountLights (nodes : List GltfNode) (objects : List Nat) : Nat :=
  objects.foldl
    (fun acc i => acc + (if (nodes.getD i default).light.isSome then 1 else 0)) 0

/-- The camera counting pass: `if(node.camera) ++cameraCount`. -/
def gltfCountCameras (nodes : List GltfNode) (objects : List Nat) : Nat :=
  objects.foldl
    (fun acc i => acc + (if (nodes.getD i default).camera.isSome then 1 else 0)) 0

/-- The skin counting pass: `if(node.skin) ++skinCount`. -/
def gltfCountSkins (nodes : List GltfNode) (objects : List Nat) : Nat :=
  objects.foldl
    (fun acc i => acc + (if (nodes.getD i default).skin.isSome then 1 else 0)) 0

/-- The mesh fill pass: one `{object, mesh, material}` record per primitive
of the node's mesh; the mesh id is `meshSizeOffsets[mesh] + primitive`. -/
def gltfMeshRecords (nodes : List GltfNode) (objects : List Nat)
    (meshSizeOffsets : List Nat) : List (Nat × Nat × Int) :=
  objects.flatMap fun i =>
    match (nodes.getD i default).meshPrims with
    | Option.some mp =>
        (List.range mp.2.length).map fun j =>
          (i, meshSizeOffsets.getD mp.1 0 + j,
           match mp.2.getD j Option.none with
           | Option.some mid => (mid : Int)
           | Option.none => -1)
    | Option.none => []

/-- The light fill pass: one `{object, light}` record per node with a
light. -/
def gltfLightRecords (nodes : List GltfNode) (objects : List Nat) :
    List (Nat × Nat) :=
  objects.flatMap fun i =>
    match (nodes.getD i default).light with
    | Option.some l => [(i, l)]
    | Option.none => []

/-- The camera fill pass. -/
def gltfCameraRecords (nodes : List GltfNode) (objects : List Nat) :
    List (Nat × Nat) :=
  objects.flatMap fun i =>
    match (nodes.getD i default).camera with
    | Option.some c => [(i, c)]
    | Option.none => []

/-- The skin fill pass. -/
def gltfSkinRecords (nodes : List GltfNode) (objects : List Nat) :
    List (Nat × Nat) :=
  objects.flatMap fun i =>
    match (nodes.getD i default).skin with
    | Option.some sk => [(i, sk)]
    | Option.none => []

theorem gltfMeshRecords_length (nodes : List GltfNode) (objects : List Nat)
    (offs : List Nat) :
    (gltfMeshRecords nodes objects offs).length = gltfCountMeshes nodes objects := by
  unfold gltfMeshRecords gltfCountMeshes
  rw [UfbxModel.foldl_add_eq_sum, List.length_flatMap, Nat.zero_add]
  congr 1
  apply List.map_congr_left
  intro i hi
  simp only [Function.comp]
  cases hmp : (nodes.getD i default).meshPrims <;> simp

theorem gltfLightRecords_length (nodes : List GltfNode) (objects : List Nat) :
    (gltfLightRecords nodes objects).length = gltfCountLights nodes objects := by
  unfold gltfLightRecords gltfCountLights
  rw [UfbxModel.foldl_add_eq_sum, List.length_flatMap, Nat.zero_add]
  congr 1
  apply List.map_congr_left
  intro i hi
  simp only [Function.comp]
  cases hmp : (nodes.getD i default).light <;> simp

theorem gltfCameraRecords_length (nodes : List GltfNode) (objects : List Nat) :
    (gltfCameraRecords nodes objects).length = gltfCountCameras nodes objects := by
  unfold gltfCameraRecords gltfCountCameras
  rw [UfbxModel.foldl_add_eq_sum, List.length_flatMap, Nat.zero_add]
  congr 1
  apply List.map_congr_left
  intro i hi
  simp only [Function.comp]
  cases hmp : (nodes.getD i default).camera <;> simp

theorem gltfSkinRecords_length (nodes : List GltfNode) (objects : List Nat) :
    (gltfSkinRecords nodes objects).length = gltfCountSkins nodes objects := by
  unfold gltfSkinRecords gltfCountSkins
  rw [UfbxModel.foldl_add_eq_sum, List.length_flatMap, Nat.zero_add]
  congr 1
  apply List.map_congr_left
  intro i hi
  simp only [Function.comp]
  cases hmp : (nodes.getD i default).skin <;> simp

end GltfModel

namespace UfbxModel

theorem sceneFill_flatMap (s : UfbxScene) :
    sceneFill s false =
      ((s.nodes.enum.filter (fun iN => !iN.2.is_root)).flatMap
          (fun iN => nodeMeshRecords (sceneMeshChunks s.meshes)
            (sceneChunkMapping s.meshes) s.meshes (iN.1 - nodeIdOffsetOf false) iN.2),
       (s.nodes.enum.filter (fun iN => !iN.2.is_root)).flatMap
          (fun iN => nodeLightRecords (iN.1 - nodeIdOffsetOf false) iN.2),
       (s.nodes.enum.filter (fun iN => !iN.2.is_root)).flatMap
          (fun iN => nodeCameraRecords (iN.1 - nodeIdOffsetOf false) iN.2)) := by
  have h := foldl_triple_filter (fun (iN : Nat × UfbxNode) => !false && iN.2.is_root)
      (fun iN => nodeMeshRecords (sceneMeshChunks s.meshes)
        (sceneChunkMapping s.meshes) s.meshes (iN.1 - nodeIdOffsetOf false) iN.2)
      (fun iN => nodeLightRecords (iN.1 - nodeIdOffsetOf false) iN.2)
      (fun iN => nodeCameraRecords (iN.1 - nodeIdOffsetOf false) iN.2)
      s.nodes.enum [] [] []
  simp only [List.nil_append, Bool.not_false, Bool.true_and] at h
  exact h

theorem ufbxMeshChannel (s : UfbxScene)
    (hroot : ∀ n ∈ s.nodes, n.is_root = true → n.attribs = [])
    (hids : ∀ n ∈ s.nodes, ∀ o ∈ n.attribs.map meshSel,
      o.isSome = true → o.getD 0 < s.meshes.length)
    (hmesh : ∀ m < s.meshes.length, (s.meshes.getD m default).instanceCount =
      (s.nodes.map (fun n => (n.attribs.map meshSel).count (Option.some m))).sum) :
    (sceneFill s false).1.length = countedMeshInstances s := by
  have hids' : ∀ n ∈ s.nodes, ∀ id, Option.some id ∈ n.attribs.map meshSel →
      id < s.meshes.length := by
    intro n hn id hid
    have := hids n hn (Option.some id) hid rfl
    simpa using this
  rw [sceneFill_flatMap]
  show ((s.nodes.enum.filter (fun iN => !iN.2.is_root)).flatMap
      (fun iN => nodeMeshRecords (sceneMeshChunks s.meshes)
        (sceneChunkMapping s.meshes) s.meshes (iN.1 - nodeIdOffsetOf false) iN.2)).length
    = countedMeshInstances s
  rw [List.length_flatMap]
  have hmap : (s.nodes.enum.filter (fun iN => !iN.2.is_root)).map
        (List.length ∘ fun iN => nodeMeshRecords (sceneMeshChunks s.meshes)
          (sceneChunkMapping s.meshes) s.meshes (iN.1 - nodeIdOffsetOf false) iN.2) =
      (s.nodes.enum.filter (fun iN => !iN.2.is_root)).map
        (fun iN => ((iN.2.attribs.map meshSel).map (fun o => match o with
          | Option.some id => ((sceneChunkMapping s.meshes).getD id default).count
          | Option.none => 0)).sum) := by
    apply List.map_congr_left
    intro iN hiN
    exact nodeMeshRecords_length _ _ _ _ _
  rw [hmap]
  rw [show s.nodes.enum = s.nodes.enumFrom 0 from rfl]
  have hesf := enum_snd_map_filter (fun (n : UfbxNode) => !n.is_root)
    (fun (n : UfbxNode) => ((n.attribs.map meshSel).map (fun o => match o with
      | Option.some id => ((sceneChunkMapping s.meshes).getD id default).count
      | Option.none => 0)).sum) s.nodes 0
  rw [hesf]
  rw [channel_total (fun id => ((sceneChunkMapping s.meshes).getD id default).count)
    s.meshes.length s.nodes hroot hids']
  rw [Finset.sum_congr rfl (fun m hm => by
    rw [← hmesh m (Finset.mem_range.mp hm)])]
  unfold countedMeshInstances
  rw [show s.meshes.enum = s.meshes.enumFrom 0 from rfl]
  rw [foldl_add_eq_sum (fun im => im.2.instanceCount *
    ((sceneChunkMapping s.meshes).getD im.1 default).count) (s.meshes.enumFrom 0) 0]
  rw [Nat.zero_add]
  rw [enumFrom_map_sum (fun i mesh => mesh.instanceCount *
    ((sceneChunkMapping s.meshes).getD i default).count) s.meshes 0]
  apply Finset.sum_congr rfl
  intro m hm
  rw [Nat.zero_add]

theorem ufbxLightChannel (s : UfbxScene)
    (hroot : ∀ n ∈ s.nodes, n.is_root = true → n.attribs = [])
    (hids : ∀ n ∈ s.nodes, ∀ o ∈ n.attribs.map lightSel,
      o.isSome = true → o.getD 0 < s.lightInstanceCounts.length)
    (hlight : ∀ l < s.lightInstanceCounts.length, s.lightInstanceCounts.getD l 0 =
      (s.nodes.map (fun n => (n.attribs.map lightSel).count (Option.some l))).sum) :
    (sceneFill s false).2.1.length = countedLightInstances s := by
  have hids' : ∀ n ∈ s.nodes, ∀ id, Option.some id ∈ n.attribs.map lightSel →
      id < s.lightInstanceCounts.length := by
    intro n hn id hid
    have := hids n hn (Option.some id) hid rfl
    simpa using this
  rw [sceneFill_flatMap]
  show ((s.nodes.enum.filter (fun iN => !iN.2.is_root)).flatMap
      (fun iN => nodeLightRecords (iN.1 - nodeIdOffsetOf false) iN.2)).length
    = countedLightInstances s
  rw [List.length_flatMap]
  have hmap : (s.nodes.enum.filter (fun iN => !iN.2.is_root)).map
        (List.length ∘ fun iN => nodeLightRecords (iN.1 - nodeIdOffsetOf false) iN.2) =
      (s.nodes.enum.filter (fun iN => !iN.2.is_root)).map
        (fun iN => ((iN.2.attribs.map lightSel).map (fun o => match o with
          | Option.some _ => 1
          | Option.none => 0)).sum) := by
    apply List.map_congr_left
    intro iN hiN
    exact nodeLightRecords_length _ _
  rw [hmap]
  rw [show s.nodes.enum = s.nodes.enumFrom 0 from rfl]
  have hesf := enum_snd_map_filter (fun (n : UfbxNode) => !n.is_root)
    (fun (n : UfbxNode) => ((n.attribs.map lightSel).map (fun o => match o with
      | Option.some _ => 1
      | Option.none => 0)).sum) s.nodes 0
  rw [hesf]
  rw [channel_total (fun _ => 1) s.lightInstanceCounts.length s.nodes hroot hids']
  unfold countedLightInstances
  rw [foldl_add_eq_sum (fun c => c) s.lightInstanceCounts 0, Nat.zero_add]
  rw [show s.lightInstanceCounts.map (fun c => c) = s.lightInstanceCounts from
    List.map_id _]
  rw [list_sum_getD]
  apply Finset.sum_congr rfl
  intro l hl
  rw [hlight l (Finset.mem_range.mp hl), Nat.mul_one]

theorem ufbxCameraChannel (s : UfbxScene)
    (hroot : ∀ n ∈ s.nodes, n.is_root = true → n.attribs = [])
    (hids : ∀ n ∈ s.nodes, ∀ o ∈ n.attribs.map cameraSel,
      o.isSome = true → o.getD 0 < s.cameraInstanceCounts.length)
    (hcam : ∀ l < s.cameraInstanceCounts.length, s.cameraInstanceCounts.getD l 0 =
      (s.nodes.map (fun n => (n.attribs.map cameraSel).count (Option.some l))).sum) :
    (sceneFill s false).2.2.length = countedCameraInstances s := by
  have hids' : ∀ n ∈ s.nodes, ∀ id, Option.some id ∈ n.attribs.map cameraSel →
      id < s.cameraInstanceCounts.length := by
    intro n hn id hid
    have := hids n hn (Option.some id) hid rfl
    simpa using this
  rw [sceneFill_flatMap]
  show ((s.nodes.enum.filter (fun iN => !iN.2.is_root)).flatMap
      (fun iN => nodeCameraRecords (iN.1 - nodeIdOffsetOf false) iN.2)).length
    = countedCameraInstances s
  rw [List.length_flatMap]
  have hmap : (s.nodes.enum.filter (fun iN => !iN.2.is_root)).map
        (List.length ∘ fun iN => nodeCameraRecords (iN.1 - nodeIdOffsetOf false) iN.2) =
      (s.nodes.enum.filter (fun iN => !iN.2.is_root)).map
        (fun iN => ((iN.2.attribs.map cameraSel).map (fun o => match o with
          | Option.some _ => 1
          | Option.none => 0)).sum) := by
    apply List.map_congr_left
    intro iN hiN
    exact nodeCameraRecords_length _ _
  rw [hmap]
  rw [show s.nodes.enum = s.nodes.enumFrom 0 from rfl]
  have hesf := enum_snd_map_filter (fun (n : UfbxNode) => !n.is_root)
    (fun (n : UfbxNode) => ((n.attribs.map cameraSel).map (fun o => match o with
      | Option.some _ => 1
      | Option.none => 0)).sum) s.nodes 0
  rw [hesf]
  rw [channel_total (fun _ => 1) s.cameraInstanceCounts.length s.nodes hroot hids']
  unfold countedCameraInstances
  rw [foldl_add_eq_sum (fun c => c) s.cameraInstanceCounts 0, Nat.zero_add]
  rw [show s.cameraInstanceCounts.map (fun c => c) = s.cameraInstanceCounts from
    List.map_id _]
  rw [list_sum_getD]
  apply Finset.sum_congr rfl
  intro l hl
  rw [hcam l (Finset.mem_range.mp hl), Nat.mul_one]

end UfbxModel

/-- Claim C4: in both importers, the number of instance records written by
the fill pass of the scene query equals, per category, the count computed by
the first counting pass — mesh instances equal the sum over retained objects
of the chunk counts of their attached meshes, and lights, cameras (and, for
the glTF importer, skins) likewise — so the count-equality assertions at the
end of the fill pass hold. -/
theorem claim_C4 (s : UfbxModel.UfbxScene)
    (hroot : ∀ n ∈ s.nodes, n.is_root = true → n.attribs = [])
    (hmeshIds : ∀ n ∈ s.nodes, ∀ o ∈ n.attribs.map UfbxModel.meshSel,
      o.isSome = true → o.getD 0 < s.meshes.length)
    (hlightIds : ∀ n ∈ s.nodes, ∀ o ∈ n.attribs.map UfbxModel.lightSel,
      o.isSome = true → o.getD 0 < s.lightInstanceCounts.length)
    (hcamIds : ∀ n ∈ s.nodes, ∀ o ∈ n.attribs.map UfbxModel.cameraSel,
      o.isSome = true → o.getD 0 < s.cameraInstanceCounts.length)
    (hmesh : ∀ m < s.meshes.length, (s.meshes.getD m default).instanceCount =
      (s.nodes.map (fun n =>
        (n.attribs.map UfbxModel.meshSel).count (Option.some m))).sum)
    (hlight : ∀ l < s.lightInstanceCounts.length, s.lightInstanceCounts.getD l 0 =
      (s.nodes.map (fun n =>
        (n.attribs.map UfbxModel.lightSel).count (Option.some l))).sum)
    (hcam : ∀ l < s.cameraInstanceCounts.length, s.cameraInstanceCounts.getD l 0 =
      (s.nodes.map (fun n =>
        (n.attribs.map UfbxModel.cameraSel).count (Option.some l))).sum)
    (gnodes : List GltfModel.GltfNode) (objects : List Nat) (offs : List Nat) :
    ((UfbxModel.sceneFill s false).1.length = UfbxModel.countedMeshInstances s ∧
     (UfbxModel.sceneFill s false).2.1.length = UfbxModel.countedLightInstances s ∧
     (UfbxModel.sceneFill s false).2.2.length = UfbxModel.countedCameraInstances s) ∧
    ((GltfModel.gltfMeshRecords gnodes objects offs).length =
        GltfModel.gltfCountMeshes gnodes objects ∧
     (GltfModel.gltfLightRecords gnodes objects).length =
        GltfModel.gltfCountLights gnodes objects ∧
     (GltfModel.gltfCameraRecords gnodes objects).length =
        GltfModel.gltfCountCameras gnodes objects ∧
     (GltfModel.gltfSkinRecords gnodes objects).length =
        GltfModel.gltfCountSkins gnodes objects) :=
  ⟨⟨UfbxModel.ufbxMeshChannel s hroot hmeshIds hmesh,
    UfbxModel.ufbxLightChannel s hroot hlightIds hlight,
    UfbxModel.ufbxCameraChannel s hroot hcamIds hcam⟩,
   GltfModel.gltfMeshRecords_length gnodes objects offs,
   GltfModel.gltfLightRecords_length gnodes objects,
   GltfModel.gltfCameraRecords_length gnodes objects,
   GltfModel.gltfSkinRecords_length gnodes objects⟩

/-- A two-node ufbx scene (root plus one node carrying a mesh, a light and a
camera) used to witness the count-conservation claim. -/
def w4scene : UfbxModel.UfbxScene :=
  ⟨[⟨Option.none, true, [], []⟩,
    ⟨Option.some 0, false,
      [UfbxModel.UfbxElement.mesh 0, UfbxModel.UfbxElement.light 0,
       UfbxModel.UfbxElement.camera 0], []⟩],
   [⟨[⟨Option.some 0, 0, 0, 4⟩], 1, false⟩],
   [1], [1]⟩

/-- A one-node glTF scene used to witness the count-conservation claim. -/
def w4gnodes : List GltfModel.GltfNode :=
  [⟨Option.some (0, [Option.some 0, Option.none]), Option.some 0, Option.none,
    Option.some 0⟩]

theorem claim_C4_witness :
    ((∀ n ∈ w4scene.nodes, n.is_root = true → n.attribs = []) ∧
     (∀ m < w4scene.meshes.length, (w4scene.meshes.getD m default).instanceCount =
       (w4scene.nodes.map (fun n =>
         (n.attribs.map UfbxModel.meshSel).count (Option.some m))).sum)) ∧
    (((UfbxModel.sceneFill w4scene false).1.length =
        UfbxModel.countedMeshInstances w4scene ∧
      (UfbxModel.sceneFill w4scene false).2.1.length =
        UfbxModel.countedLightInstances w4scene ∧
      (UfbxModel.sceneFill w4scene false).2.2.length =
        UfbxModel.countedCameraInstances w4scene) ∧
     ((GltfModel.gltfMeshRecords w4gnodes [0] [0]).length =
        GltfModel.gltfCountMeshes w4gnodes [0] ∧
      (GltfModel.gltfLightRecords w4gnodes [0]).length =
        GltfModel.gltfCountLights w4gnodes [0] ∧
      (GltfModel.gltfCameraRecords w4gnodes [0]).length =
        GltfModel.gltfCountCameras w4gnodes [0] ∧
      (GltfModel.gltfSkinRecords w4gnodes [0]).length =
        GltfModel.gltfCountSkins w4gnodes [0])) :=
  ⟨⟨by decide, by decide⟩,
   claim_C4 w4scene (by decide) (by decide) (by decide) (by decide) (by decide)
     (by decide) (by decide) w4gnodes [0] [0]⟩

namespace GltfModel

/-- A parsed glTF document restricted to what the cycle check of
`CgltfImporter::doOpenData` consults: the per-node parent links. -/
structure GltfDoc where
  parentIds : List (Option Nat)
deriving DecidableEq, Repr

/-- Number of nodes (`data->nodes_count`). -/
def nodeCount (d : GltfDoc) : Nat := d.parentIds.length

/-- `node.parent` of node `i` (out-of-range reads yield no parent; cgltf
validates all parent references during parsing). -/
def parentOf (d : GltfDoc) (i : Nat) : Option Nat :=
  d.parentIds.getD i Option.none

/-- One step along a (possibly absent) parent pointer: the
`p ? p->parent : nullptr` idiom. -/
def pstep (d : GltfDoc) : Option Nat → Option Nat
  | Option.none => Option.none
  | Option.some i => parentOf d i

/-- The parent chain: `chain d i k` is the node reached after `k` parent
steps from node `i`, if any. -/
def chain (d : GltfDoc) (i k : Nat) : Option Nat :=
  (pstep d)^[k] (Option.some i)

/-- The tortoise-and-hare loop body of the cycle check, with explicit fuel:
`while(p1 && p2) { if(p1 == p2) cycle; p1 = p1->parent;
p2 = p2->parent ? p2->parent->parent : nullptr; }`. -/
def floyd (d : GltfDoc) : Nat → Option Nat → Option Nat → Bool
  | 0, _, _ => false
  | fuel + 1, p1, p2 =>
      match p1, p2 with
      | Option.some a, Option.some b =>
          if a = b then true
          else floyd d fuel (parentOf d a) (pstep d (parentOf d b))
      | _, _ => false

/-- Fuel shown sufficient for the loop to reach its verdict. -/
def floydFuel (d : GltfDoc) : Nat := (nodeCount d + 1) * (nodeCount d + 1)

/-- Whether the check starting at node `i` reports a cycle
(`p1 = nodes[i].parent; p2 = p1 ? p1->parent : nullptr`). -/
def detectFrom (d : GltfDoc) (i : Nat) : Bool :=
  floyd d (floydFuel d) (parentOf d i) (pstep d (parentOf d i))

/-- The cycle-check loop over all nodes of `CgltfImporter::doOpenData`:
the first node index at which the tortoise and hare meet, if any. -/
def cycleCheck (d : GltfDoc) : Option Nat :=
  (List.range (nodeCount d)).find? (fun i => detectFrom d i)

/-- The open outcome as far as the cycle check decides it: a detected cycle
emits the error and calls `doClose()`, leaving no document state; otherwise
the document survives this validation step. -/
def openDataCheck (d : GltfDoc) : Option GltfDoc :=
  match cycleCheck d with
  | Option.some _ => Option.none
  | Option.none => Option.some d

/-- Well-formedness established by cgltf's reference validation: every parent
link points at a node of the document. -/
def WFdoc (d : GltfDoc) : Prop :=
  ∀ o ∈ d.parentIds, o.isSome = true → o.getD 0 < nodeCount d

/-- The document's parent graph has a cycle. -/
def hasCycle (d : GltfDoc) : Prop :=
  ∃ x t, 0 < t ∧ chain d x t = Option.some x

theorem chain_zero (d : GltfDoc) (i : Nat) : chain d i 0 = Option.some i := rfl

theorem chain_succ (d : GltfDoc) (i k : Nat) :
    chain d i (k + 1) = pstep d (chain d i k) := by
  unfold chain
  exact Function.iterate_succ_apply' (pstep d) k (Option.some i)

theorem chain_add (d : GltfDoc) (i a m : Nat) :
    chain d i (a + m) = (pstep d)^[m] (chain d i a) := by
  unfold chain
  rw [Nat.add_comm a m, Function.iterate_add_apply]

theorem chain_restart (d : GltfDoc) {i a : Nat} {v : Nat}
    (h : chain d i a = Option.some v) (m : Nat) :
    chain d i (a + m) = chain d v m := by
  rw [chain_add, h]
  rfl

theorem chain_none_absorb (d : GltfDoc) {i a : Nat}
    (h : chain d i a = Option.none) (m : Nat) :
    chain d i (a + m) = Option.none := by
  rw [chain_add, h]
  induction m with
  | zero => rfl
  | succ m ih => rw [Function.iterate_succ_apply', ih]; rfl

theorem pstep_bound (d : GltfDoc) (hwf : WFdoc d) {o : Option Nat} {p : Nat}
    (h : pstep d o = Option.some p) : p < nodeCount d := by
  cases o with
  | none => simp [pstep] at h
  | some j =>
      have h' : d.parentIds.getD j Option.none = Option.some p := h
      by_cases hj : j < d.parentIds.length
      · rw [List.getD_eq_getElem _ _ hj] at h'
        have hmem : d.parentIds[j] ∈ d.parentIds := List.getElem_mem hj
        rw [h'] at hmem
        have := hwf (Option.some p) hmem rfl
        simpa using this
      · rw [List.getD_eq_default _ _ (by omega)] at h'
        exact absurd h' (by simp)

theorem chain_some_bound (d : GltfDoc) (hwf : WFdoc d) {i k v : Nat}
    (h : chain d i (k + 1) = Option.some v) : v < nodeCount d := by
  rw [chain_succ] at h
  exact pstep_bound d hwf h

end GltfModel

namespace GltfModel

/-- An endless parent chain revisits a value: two chain positions within the
first `nodeCount + 1` steps agree (pigeonhole over the node ids). -/
theorem chain_repeat (d : GltfDoc) (hwf : WFdoc d) (i : Nat)
    (hinf : ∀ k, chain d i k ≠ Option.none) :
    ∃ a b, 1 ≤ a ∧ a < b ∧ b ≤ nodeCount d + 1 ∧ chain d i a = chain d i b := by
  have hval : ∀ k : Nat, ∃ v, chain d i (k + 1) = Option.some v ∧ v < nodeCount d := by
    intro k
    cases hc : chain d i (k + 1) with
    | none => exact absurd hc (hinf (k + 1))
    | some v => exact ⟨v, rfl, chain_some_bound d hwf hc⟩
  have hcard : Fintype.card (Fin (nodeCount d)) < Fintype.card (Fin (nodeCount d + 1)) := by
    simp
  have hbound : ∀ j : Fin (nodeCount d + 1), (chain d i (j.1 + 1)).getD 0 < nodeCount d := by
    intro j
    obtain ⟨v, hv, hvb⟩ := hval j.1
    rw [hv]
    simpa using hvb
  obtain ⟨j1, j2, hne, heq⟩ := Fintype.exists_ne_map_eq_of_card_lt
    (fun j : Fin (nodeCount d + 1) => (⟨(chain d i (j.1 + 1)).getD 0, hbound j⟩ : Fin (nodeCount d)))
    hcard
  have hveq : (chain d i (j1.1 + 1)).getD 0 = (chain d i (j2.1 + 1)).getD 0 := by
    exact congrArg Fin.val heq
  have hchain_eq : chain d i (j1.1 + 1) = chain d i (j2.1 + 1) := by
    obtain ⟨v1, hv1, _⟩ := hval j1.1
    obtain ⟨v2, hv2, _⟩ := hval j2.1
    rw [hv1, hv2]
    rw [hv1, hv2] at hveq
    simpa using hveq
  have hjne : j1.1 ≠ j2.1 := fun h => hne (Fin.ext h)
  rcases Nat.lt_or_ge j1.1 j2.1 with hlt | hge
  · exact ⟨j1.1 + 1, j2.1 + 1, by omega, by omega, by omega, hchain_eq⟩
  · have hlt2 : j2.1 < j1.1 := by omega
    exact ⟨j2.1 + 1, j1.1 + 1, by omega, by omega, by omega, hchain_eq.symm⟩

/-- Two equal chain positions make the chain periodic from the earlier one
onward. -/
theorem chain_shift (d : GltfDoc) {i a b : Nat} (hab : a ≤ b)
    (heq : chain d i a = chain d i b) :
    ∀ x, a ≤ x → chain d i x = chain d i (x + (b - a)) := by
  intro x hx
  have e1 : x + (b - a) = b + (x - a) := by omega
  have e2 : a + (x - a) = x := by omega
  rw [e1, chain_add, ← heq, ← chain_add, e2]

end GltfModel

namespace GltfModel

/-- On an endless chain the tortoise and hare positions agree at some step
bounded by the loop fuel. -/
theorem chain_meet (d : GltfDoc) (hwf : WFdoc d) (i : Nat)
    (hinf : ∀ k, chain d i k ≠ Option.none) :
    ∃ T, 1 ≤ T ∧ T ≤ floydFuel d ∧ chain d i T = chain d i (2 * T) := by
  obtain ⟨a, b, ha1, hab, hbn, heq⟩ := chain_repeat d hwf i hinf
  have hshift := chain_shift d (le_of_lt hab) heq
  have hiter : ∀ q x, a ≤ x → chain d i x = chain d i (x + (b - a) * q) := by
    intro q
    induction q with
    | zero => intro x hx; simp
    | succ q ih =>
        intro x hx
        rw [ih x hx]
        have hx2 : a ≤ x + (b - a) * q := by omega
        rw [hshift (x + (b - a) * q) hx2]
        congr 1
        ring
  have hd0 : 1 ≤ b - a := by omega
  refine ⟨(b - a) * (a + 1), ?_, ?_, ?_⟩
  · have := Nat.mul_le_mul hd0 (Nat.le_refl (a + 1))
    omega
  · unfold floydFuel
    have hb1 : b - a ≤ nodeCount d := by omega
    have hb2 : a + 1 ≤ nodeCount d + 1 := by omega
    calc (b - a) * (a + 1) ≤ (nodeCount d) * (nodeCount d + 1) :=
          Nat.mul_le_mul hb1 hb2
      _ ≤ (nodeCount d + 1) * (nodeCount d + 1) :=
          Nat.mul_le_mul (Nat.le_succ _) (Nat.le_refl _)
  · have hTa : a ≤ (b - a) * (a + 1) := by
      have := Nat.mul_le_mul hd0 (Nat.le_refl (a + 1))
      omega
    have := hiter (a + 1) ((b - a) * (a + 1)) hTa
    rw [show 2 * ((b - a) * (a + 1)) = (b - a) * (a + 1) + (b - a) * (a + 1) from by ring]
    exact this

end GltfModel

namespace GltfModel

theorem floyd_reaches (d : GltfDoc) (i : Nat)
    (hinf : ∀ k, chain d i k ≠ Option.none) :
    ∀ (n s fuel : Nat),
      chain d i (1 + (s + n)) = chain d i (2 + 2 * (s + n)) → n < fuel →
      floyd d fuel (chain d i (1 + s)) (chain d i (2 + 2 * s)) = true := by
  intro n
  induction n with
  | zero =>
      intro s fuel hmeet hfuel
      obtain ⟨f, rfl⟩ : ∃ f, fuel = f + 1 := ⟨fuel - 1, by omega⟩
      cases h1 : chain d i (1 + s) with
      | none => exact absurd h1 (hinf _)
      | some va =>
          cases h2 : chain d i (2 + 2 * s) with
          | none => exact absurd h2 (hinf _)
          | some vb =>
              simp only [Nat.add_zero] at hmeet
              rw [h1, h2] at hmeet
              have hveq : va = vb := by simpa using hmeet
              subst hveq
              show (if va = va then true
                else floyd d f (parentOf d va) (pstep d (parentOf d va))) = true
              rw [if_pos rfl]
  | succ n ih =>
      intro s fuel hmeet hfuel
      obtain ⟨f, rfl⟩ : ∃ f, fuel = f + 1 := ⟨fuel - 1, by omega⟩
      cases h1 : chain d i (1 + s) with
      | none => exact absurd h1 (hinf _)
      | some va =>
          cases h2 : chain d i (2 + 2 * s) with
          | none => exact absurd h2 (hinf _)
          | some vb =>
              by_cases hab : va = vb
              · subst hab
                show (if va = va then true
                  else floyd d f (parentOf d va) (pstep d (parentOf d va))) = true
                rw [if_pos rfl]
              · show (if va = vb then true
                  else floyd d f (parentOf d va) (pstep d (parentOf d vb))) = true
                rw [if_neg hab]
                have hp1 : parentOf d va = chain d i (1 + (s + 1)) := by
                  rw [show 1 + (s + 1) = (1 + s) + 1 from by omega, chain_succ, h1]
                  rfl
                have hp2 : pstep d (parentOf d vb) = chain d i (2 + 2 * (s + 1)) := by
                  rw [show 2 + 2 * (s + 1) = ((2 + 2 * s) + 1) + 1 from by omega,
                    chain_succ, chain_succ, h2]
                  rfl
                rw [hp1, hp2]
                apply ih (s + 1) f _ (by omega)
                rw [show (s + 1) + n = s + (n + 1) from by omega]
                exact hmeet

theorem detectFrom_of_inf (d : GltfDoc) (hwf : WFdoc d) (i : Nat)
    (hinf : ∀ k, chain d i k ≠ Option.none) :
    detectFrom d i = true := by
  obtain ⟨T, hT1, hTb, hmeet⟩ := chain_meet d hwf i hinf
  unfold detectFrom
  rw [show parentOf d i = chain d i 1 from rfl,
    show pstep d (chain d i 1) = chain d i 2 from rfl]
  apply floyd_reaches d i hinf (T - 1) 0 (floydFuel d) _ (by omega)
  rw [show 1 + (0 + (T - 1)) = T from by omega,
    show 2 + 2 * (0 + (T - 1)) = 2 * T from by omega]
  exact hmeet

theorem floyd_sound (d : GltfDoc) (i : Nat) :
    ∀ (fuel a b : Nat), a < b →
      floyd d fuel (chain d i a) (chain d i b) = true →
      ∃ x t c, 0 < t ∧ chain d i c = Option.some x ∧
        chain d x t = Option.some x := by
  intro fuel
  induction fuel with
  | zero =>
      intro a b hab h
      exact absurd h (by simp [floyd])
  | succ f ih =>
      intro a b hab h
      cases h1 : chain d i a with
      | none =>
          rw [h1] at h
          exact absurd h (by simp [floyd])
      | some va =>
          cases h2 : chain d i b with
          | none =>
              rw [h1, h2] at h
              exact absurd h (by simp [floyd])
          | some vb =>
              rw [h1, h2] at h
              have hred : floyd d (f + 1) (Option.some va) (Option.some vb) =
                  if va = vb then true
                  else floyd d f (parentOf d va) (pstep d (parentOf d vb)) := rfl
              rw [hred] at h
              by_cases hab2 : va = vb
              · subst hab2
                refine ⟨va, b - a, a, by omega, h1, ?_⟩
                have := chain_restart d h1 (b - a)
                rw [show a + (b - a) = b from by omega] at this
                rw [← this, h2]
              · rw [if_neg hab2] at h
                have hp1 : parentOf d va = chain d i (a + 1) := by
                  rw [chain_succ, h1]
                  rfl
                have hp2 : pstep d (parentOf d vb) = chain d i (b + 2) := by
                  rw [show b + 2 = (b + 1) + 1 from rfl, chain_succ, chain_succ, h2]
                  rfl
                rw [hp1, hp2] at h
                exact ih (a + 1) (b + 2) (by omega) h

end GltfModel

namespace GltfModel

theorem inf_of_cycle (d : GltfDoc) {x t : Nat} (ht : 0 < t)
    (hc : chain d x t = Option.some x) :
    ∀ k, chain d x k ≠ Option.none := by
  have hq : ∀ q, chain d x (t * q) = Option.some x := by
    intro q
    induction q with
    | zero => rfl
    | succ q ih =>
        have := chain_restart d ih t
        rw [hc] at this
        rw [show t * (q + 1) = t * q + t from by ring]
        exact this
  intro k hk
  have habs := chain_none_absorb d hk (t * k - k)
  rw [show k + (t * k - k) = t * k from by
    have : k ≤ t * k := Nat.le_mul_of_pos_left k ht
    omega] at habs
  rw [hq k] at habs
  exact absurd habs (by simp)

theorem detectFrom_sound (d : GltfDoc) (i : Nat) (h : detectFrom d i = true) :
    ∃ x t c, 0 < t ∧ chain d i c = Option.some x ∧ chain d x t = Option.some x := by
  unfold detectFrom at h
  rw [show parentOf d i = chain d i 1 from rfl,
    show pstep d (chain d i 1) = chain d i 2 from rfl] at h
  exact floyd_sound d i (floydFuel d) 1 2 (by omega) h

theorem cycle_node_bound (d : GltfDoc) (hwf : WFdoc d) {x t : Nat} (ht : 0 < t)
    (hc : chain d x t = Option.some x) : x < nodeCount d := by
  obtain ⟨t', rfl⟩ : ∃ t', t = t' + 1 := ⟨t - 1, by omega⟩
  exact chain_some_bound d hwf hc

theorem cycleCheck_none_iff (d : GltfDoc) (hwf : WFdoc d) :
    cycleCheck d = Option.none ↔ ¬ hasCycle d := by
  constructor
  · intro hcc hcy
    obtain ⟨x, t, ht, hc⟩ := hcy
    have hx : x < nodeCount d := cycle_node_bound d hwf ht hc
    have hdet : detectFrom d x = true :=
      detectFrom_of_inf d hwf x (inf_of_cycle d ht hc)
    have := List.find?_eq_none.mp hcc x (List.mem_range.mpr hx)
    exact this hdet
  · intro hnc
    cases hcc : cycleCheck d with
    | none => rfl
    | some i =>
        have hdet : detectFrom d i = true := List.find?_some hcc
        obtain ⟨x, t, c, ht, _, hc⟩ := detectFrom_sound d i hdet
        exact absurd ⟨x, t, ht, hc⟩ hnc

/-- Node `i`'s parent chain reaches a cycle: some node on the chain from `i`
returns to itself after a positive number of parent steps. -/
def reachesCycle (d : GltfDoc) (i : Nat) : Prop :=
  ∃ x t c, 0 < t ∧ chain d i c = Option.some x ∧ chain d x t = Option.some x

/-- A chain that reaches a cycle never terminates. -/
theorem inf_of_reach (d : GltfDoc) {j : Nat} (hr : reachesCycle d j) :
    ∀ k, chain d j k ≠ Option.none := by
  obtain ⟨x, t, c, ht, hc, hcyc⟩ := hr
  intro k hk
  rcases Nat.le_total k c with hkc | hck
  · have habs := chain_none_absorb d hk (c - k)
    rw [show k + (c - k) = c from by omega] at habs
    rw [hc] at habs
    exact absurd habs (by simp)
  · have hres := chain_restart d hc (k - c)
    rw [show c + (k - c) = k from by omega] at hres
    rw [hk] at hres
    exact inf_of_cycle d ht hcyc (k - c) hres.symm

/-- Completeness of the per-node check: a node whose chain reaches a cycle is
reported by the tortoise-and-hare walk started at it. -/
theorem detectFrom_of_reach (d : GltfDoc) (hwf : WFdoc d) (j : Nat)
    (hr : reachesCycle d j) : detectFrom d j = true :=
  detectFrom_of_inf d hwf j (inf_of_reach d hr)

/-- `List.find?` over `List.range` returns the least index satisfying the
predicate: all smaller indices fail it. -/
theorem range_find?_min {p : Nat → Bool} {n i : Nat}
    (h : (List.range n).find? p = Option.some i) :
    ∀ j < i, p j = false := by
  rw [List.find?_eq_some_iff_getElem] at h
  obtain ⟨hpi, k, hk, hki, hmin⟩ := h
  have hk_eq : k = i := by
    rw [List.getElem_range] at hki
    exact hki
  intro j hj
  have hjlt : j < k := by omega
  have := hmin j hjlt
  rw [List.getElem_range] at this
  simpa using this

/-- Claim C5 (amended): a parent-graph cycle is always detected at open time
and aborts the open with no document state, and a successfully opened
document has no cycle in any parent chain; the error names the first node in
index order whose parent chain reaches the cycle — every smaller index has a
chain reaching no cycle — and that node need not itself lie on the cycle. -/
theorem claim_C5 (d : GltfDoc) (hwf : WFdoc d) :
    (hasCycle d ↔ openDataCheck d = Option.none) ∧
    (∀ d', openDataCheck d = Option.some d' → d' = d ∧ ¬ hasCycle d) ∧
    (∀ i, cycleCheck d = Option.some i → i < nodeCount d ∧
      reachesCycle d i ∧ ∀ j < i, ¬ reachesCycle d j) := by
  refine ⟨?_, ?_, ?_⟩
  · constructor
    · intro hcy
      unfold openDataCheck
      cases hcc : cycleCheck d with
      | none => exact absurd ((cycleCheck_none_iff d hwf).mp hcc) (by simpa using hcy)
      | some i => rfl
    · intro hod
      unfold openDataCheck at hod
      cases hcc : cycleCheck d with
      | none =>
          rw [hcc] at hod
          exact absurd hod (by simp)
      | some i =>
          have hdet : detectFrom d i = true := List.find?_some hcc
          obtain ⟨x, t, c, ht, _, hc⟩ := detectFrom_sound d i hdet
          exact ⟨x, t, ht, hc⟩
  · intro d' hod
    unfold openDataCheck at hod
    cases hcc : cycleCheck d with
    | none =>
        rw [hcc] at hod
        refine ⟨by simpa using hod.symm, (cycleCheck_none_iff d hwf).mp hcc⟩
    | some i =>
        rw [hcc] at hod
        exact absurd hod (by simp)
  · intro i hcc
    have hdet : detectFrom d i = true := List.find?_some hcc
    have hmem : i ∈ List.range (nodeCount d) := List.mem_of_find?_eq_some hcc
    refine ⟨List.mem_range.mp hmem, detectFrom_sound d i hdet, ?_⟩
    intro j hj hreach
    have hdj : detectFrom d j = true := detectFrom_of_reach d hwf j hreach
    have hfind : (List.range (nodeCount d)).find? (fun k => detectFrom d k) =
        Option.some i := hcc
    have := range_find?_min hfind j hj
    rw [hdj] at this
    exact absurd this (by simp)

/-- The cyclic document used as counterexample: node 0's parent is 1, node
1's parent is 2, node 2's parent is 1 — the cycle is `{1, 2}` and node 0 is
not on it. -/
def c5doc : GltfDoc :=
  ⟨[Option.some 1, Option.some 2, Option.some 1]⟩

/-- Claim C5 counterexample: the check errors naming node 0, but node 0 is
not on the cycle (its parent chain only reaches it), refuting the clause
that the fatal error names a node on the cycle. -/
theorem claim_C5_counterexample :
    cycleCheck c5doc = Option.some 0 ∧
    hasCycle c5doc ∧
    ¬ (∃ t, 0 < t ∧ chain c5doc 0 t = Option.some 0) := by
  refine ⟨by decide, ⟨1, 2, by omega, by decide⟩, ?_⟩
  rintro ⟨t, ht, hc⟩
  have haux : ∀ k, chain c5doc 0 (k + 1) = Option.some 1 ∨
      chain c5doc 0 (k + 1) = Option.some 2 := by
    intro k
    induction k with
    | zero => left; rfl
    | succ k ih =>
        rcases ih with h | h
        · right
          rw [chain_succ, h]
          rfl
        · left
          rw [chain_succ, h]
          rfl
  cases t with
  | zero => omega
  | succ t' =>
      rcases haux t' with h | h <;> rw [hc] at h <;> simp at h

instance (d : GltfDoc) : Decidable (WFdoc d) := by
  unfold WFdoc
  infer_instance

/-- An acyclic two-node document used to witness the cycle-check claim. -/
def w5doc : GltfDoc := ⟨[Option.none, Option.some 0]⟩

theorem claim_C5_witness :
    WFdoc w5doc ∧
    ((hasCycle w5doc ↔ openDataCheck w5doc = Option.none) ∧
     (∀ d', openDataCheck w5doc = Option.some d' → d' = w5doc ∧ ¬ hasCycle w5doc) ∧
     (∀ i, cycleCheck w5doc = Option.some i → i < nodeCount w5doc ∧
       reachesCycle w5doc i ∧ ∀ j < i, ¬ reachesCycle w5doc j)) :=
  ⟨by decide, claim_C5 w5doc (by decide)⟩

end GltfModel

namespace UfbxModel

/-- The configuration values `getLoadOptsFromConfiguration` reads for its
enum-like options. -/
structure UfbxConfig where
  unitNormalizationHandling : String
  geometryTransformHandling : String
deriving DecidableEq, Repr

/-- `ufbx_space_conversion` values the importer can select. -/
inductive SpaceConversion where
  | transformRoot
  | adjustTransforms
deriving DecidableEq, Repr

/-- `ufbx_geometry_transform_handling` values the importer can select. -/
inductive GeometryTransformMode where
  | preserve
  | helperNodes
  | modifyGeometry
deriving DecidableEq, Repr

/-- The slice of `ufbx_load_opts` decided by the two enum-like options. -/
structure LoadOpts where
  space_conversion : SpaceConversion
  geometry_transform_handling : GeometryTransformMode
deriving DecidableEq, Repr

/-- Errors the open paths can report before or during parsing. -/
inductive OpenError where
  | unsupportedUnitNormalizationHandling (value : String)
  | unsupportedGeometryTransformHandling (value : String)
  | loadFailed
deriving DecidableEq, Repr

/-- `getLoadOptsFromConfiguration`: validates `unitNormalizationHandling`
first, then `geometryTransformHandling`; an unrecognized value emits an error
naming the configured string and fails the call. -/
def getLoadOptsFromConfiguration (conf : UfbxConfig) : Except OpenError LoadOpts :=
  let unitRes : Except OpenError SpaceConversion :=
    if conf.unitNormalizationHandling = "transformRoot" then
      Except.ok SpaceConversion.transformRoot
    else if conf.unitNormalizationHandling = "adjustTransforms" then
      Except.ok SpaceConversion.adjustTransforms
    else
      Except.error (OpenError.unsupportedUnitNormalizationHandling
        conf.unitNormalizationHandling)
  match unitRes with
  | Except.error e => Except.error e
  | Except.ok sc =>
      if conf.geometryTransformHandling = "preserve" then
        Except.ok ⟨sc, GeometryTransformMode.preserve⟩
      else if conf.geometryTransformHandling = "helperNodes" then
        Except.ok ⟨sc, GeometryTransformMode.helperNodes⟩
      else if conf.geometryTransformHandling = "modifyGeometry" then
        Except.ok ⟨sc, GeometryTransformMode.modifyGeometry⟩
      else
        Except.error (OpenError.unsupportedGeometryTransformHandling
          conf.geometryTransformHandling)

/-- Observable outcome of an open call: the error reported (if any), whether
importer state was established, and whether the parser was ever invoked. -/
structure OpenOutcome where
  err : Option OpenError
  opened : Bool
  parseAttempted : Bool
deriving DecidableEq, Repr

/-- `UfbxImporter::doOpenData`: configuration validation happens before
`ufbx_load_memory`; a validation failure returns without parsing. -/
def doOpenDataModel (conf : UfbxConfig) (parse : LoadOpts → Option Unit) :
    OpenOutcome :=
  match getLoadOptsFromConfiguration conf with
  | Except.error e => ⟨Option.some e, false, false⟩
  | Except.ok opts =>
      match parse opts with
      | Option.none => ⟨Option.some OpenError.loadFailed, false, true⟩
      | Option.some _ => ⟨Option.none, true, true⟩

/-- `UfbxImporter::doOpenFile`: identical validate-then-parse structure with
`ufbx_load_file_len` as the parser. -/
def doOpenFileModel (conf : UfbxConfig) (parse : LoadOpts → Option Unit) :
    OpenOutcome :=
  match getLoadOptsFromConfiguration conf with
  | Except.error e => ⟨Option.some e, false, false⟩
  | Except.ok opts =>
      match parse opts with
      | Option.none => ⟨Option.some OpenError.loadFailed, false, true⟩
      | Option.some _ => ⟨Option.none, true, true⟩

/-- The recognized `unitNormalizationHandling` strings. -/
def validUnitNormalization (v : String) : Prop :=
  v = "transformRoot" ∨ v = "adjustTransforms"

instance (v : String) : Decidable (validUnitNormalization v) := by
  unfold validUnitNormalization
  infer_instance

/-- The recognized `geometryTransformHandling` strings. -/
def validGeometryTransform (v : String) : Prop :=
  v = "preserve" ∨ v = "helperNodes" ∨ v = "modifyGeometry"

instance (v : String) : Decidable (validGeometryTransform v) := by
  unfold validGeometryTransform
  infer_instance

theorem getLoadOpts_err_unit (conf : UfbxConfig)
    (hu : ¬ validUnitNormalization conf.unitNormalizationHandling) :
    getLoadOptsFromConfiguration conf =
      Except.error (OpenError.unsupportedUnitNormalizationHandling
        conf.unitNormalizationHandling) := by
  unfold getLoadOptsFromConfiguration validUnitNormalization at *
  rw [if_neg (fun h => hu (Or.inl h)), if_neg (fun h => hu (Or.inr h))]

theorem getLoadOpts_err_geom (conf : UfbxConfig)
    (hu : validUnitNormalization conf.unitNormalizationHandling)
    (hg : ¬ validGeometryTransform conf.geometryTransformHandling) :
    getLoadOptsFromConfiguration conf =
      Except.error (OpenError.unsupportedGeometryTransformHandling
        conf.geometryTransformHandling) := by
  unfold validGeometryTransform at hg
  have hgeom : ∀ sc : SpaceConversion,
      (if conf.geometryTransformHandling = "preserve" then
        Except.ok (⟨sc, GeometryTransformMode.preserve⟩ : LoadOpts)
      else if conf.geometryTransformHandling = "helperNodes" then
        Except.ok ⟨sc, GeometryTransformMode.helperNodes⟩
      else if conf.geometryTransformHandling = "modifyGeometry" then
        Except.ok ⟨sc, GeometryTransformMode.modifyGeometry⟩
      else
        Except.error (OpenError.unsupportedGeometryTransformHandling
          conf.geometryTransformHandling)) =
      Except.error (OpenError.unsupportedGeometryTransformHandling
        conf.geometryTransformHandling) := by
    intro sc
    rw [if_neg (fun h => hg (Or.inl h)),
      if_neg (fun h => hg (Or.inr (Or.inl h))),
      if_neg (fun h => hg (Or.inr (Or.inr h)))]
  unfold getLoadOptsFromConfiguration
  rcases hu with hu | hu
  · rw [if_pos hu]
    exact hgeom SpaceConversion.transformRoot
  · by_cases h1 : conf.unitNormalizationHandling = "transformRoot"
    · rw [if_pos h1]
      exact hgeom SpaceConversion.transformRoot
    · rw [if_neg h1, if_pos hu]
      exact hgeom SpaceConversion.adjustTransforms

/-- Claim C6: an unrecognized value of an enum-like option
(`unitNormalizationHandling` or `geometryTransformHandling`) fails both open
paths before any parsing, with an error naming the offending configured
value, and leaves the importer unopened. -/
theorem claim_C6 (conf : UfbxConfig) (parse parseFile : LoadOpts → Option Unit)
    (hbad : ¬ validUnitNormalization conf.unitNormalizationHandling ∨
            ¬ validGeometryTransform conf.geometryTransformHandling) :
    ((doOpenDataModel conf parse).opened = false ∧
     (doOpenDataModel conf parse).parseAttempted = false ∧
     (doOpenFileModel conf parseFile).opened = false ∧
     (doOpenFileModel conf parseFile).parseAttempted = false) ∧
    (¬ validUnitNormalization conf.unitNormalizationHandling →
      (doOpenDataModel conf parse).err =
        Option.some (OpenError.unsupportedUnitNormalizationHandling
          conf.unitNormalizationHandling) ∧
      (doOpenFileModel conf parseFile).err =
        Option.some (OpenError.unsupportedUnitNormalizationHandling
          conf.unitNormalizationHandling)) ∧
    (validUnitNormalization conf.unitNormalizationHandling →
      ¬ validGeometryTransform conf.geometryTransformHandling →
      (doOpenDataModel conf parse).err =
        Option.some (OpenError.unsupportedGeometryTransformHandling
          conf.geometryTransformHandling) ∧
      (doOpenFileModel conf parseFile).err =
        Option.some (OpenError.unsupportedGeometryTransformHandling
          conf.geometryTransformHandling)) := by
  have herr : ∃ e, getLoadOptsFromConfiguration conf = Except.error e := by
    rcases hbad with hu | hg
    · exact ⟨_, getLoadOpts_err_unit conf hu⟩
    · by_cases hu : validUnitNormalization conf.unitNormalizationHandling
      · exact ⟨_, getLoadOpts_err_geom conf hu hg⟩
      · exact ⟨_, getLoadOpts_err_unit conf hu⟩
  obtain ⟨e, he⟩ := herr
  refine ⟨?_, ?_, ?_⟩
  · unfold doOpenDataModel doOpenFileModel
    rw [he]
    exact ⟨rfl, rfl, rfl, rfl⟩
  · intro hu
    unfold doOpenDataModel doOpenFileModel
    rw [getLoadOpts_err_unit conf hu]
    exact ⟨rfl, rfl⟩
  · intro hu hg
    unfold doOpenDataModel doOpenFileModel
    rw [getLoadOpts_err_geom conf hu hg]
    exact ⟨rfl, rfl⟩

/-- A configuration with a misspelled `unitNormalizationHandling`, used to
witness the validation claim. -/
def w6conf : UfbxConfig := ⟨"bogusValue", "helperNodes"⟩

theorem claim_C6_witness :
    (¬ validUnitNormalization w6conf.unitNormalizationHandling ∨
     ¬ validGeometryTransform w6conf.geometryTransformHandling) ∧
    (((doOpenDataModel w6conf (fun _ => Option.some ())).opened = false ∧
      (doOpenDataModel w6conf (fun _ => Option.some ())).parseAttempted = false ∧
      (doOpenFileModel w6conf (fun _ => Option.some ())).opened = false ∧
      (doOpenFileModel w6conf (fun _ => Option.some ())).parseAttempted = false) ∧
     (¬ validUnitNormalization w6conf.unitNormalizationHandling →
       (doOpenDataModel w6conf (fun _ => Option.some ())).err =
         Option.some (OpenError.unsupportedUnitNormalizationHandling
           w6conf.unitNormalizationHandling) ∧
       (doOpenFileModel w6conf (fun _ => Option.some ())).err =
         Option.some (OpenError.unsupportedUnitNormalizationHandling
           w6conf.unitNormalizationHandling)) ∧
     (validUnitNormalization w6conf.unitNormalizationHandling →
       ¬ validGeometryTransform w6conf.geometryTransformHandling →
       (doOpenDataModel w6conf (fun _ => Option.some ())).err =
         Option.some (OpenError.unsupportedGeometryTransformHandling
           w6conf.geometryTransformHandling) ∧
       (doOpenFileModel w6conf (fun _ => Option.some ())).err =
         Option.some (OpenError.unsupportedGeometryTransformHandling
           w6conf.geometryTransformHandling))) :=
  ⟨by decide, claim_C6 w6conf (fun _ => Option.some ()) (fun _ => Option.some ())
    (by decide)⟩

end UfbxModel

namespace ImageCacheModel

/-- The importer-side image cache state: the id of the last image an open was
attempted for (`imageImporterId`, initially the `~0u` sentinel modelled as
absent) and whether that attempt left a usable importer (`imageImporter`). -/
structure ImageCacheState where
  imageImporterId : Option Nat
  importerOpen : Bool
deriving DecidableEq, Repr

/-- The state right after opening a document: no image importer set up. -/
def initImageCache : ImageCacheState := ⟨Option.none, false⟩

/-- `setupOrReuseImporterForImage` (identical logic in `UfbxImporter` and
`CgltfImporter`): reuse the cached result, positive or negative, when the id
matches the previous query; otherwise remember the new id and attempt one
open, whose success is abstracted by `openOk`. Returns the new state, whether
an importer is available, and whether an open was attempted. -/
def setupOrReuseImporterForImage (openOk : Nat → Bool) (st : ImageCacheState)
    (id : Nat) : ImageCacheState × Bool × Bool :=
  if st.imageImporterId = Option.some id then
    (st, st.importerOpen, false)
  else
    (⟨Option.some id, openOk id⟩, openOk id, true)

/-- A sequence of image-level queries against one open document: returns the
image ids for which an importer open was attempted, in order. -/
def runImageQueries (openOk : Nat → Bool) :
    ImageCacheState → List Nat → List Nat
  | _, [] => []
  | st, id :: rest =>
      (if (setupOrReuseImporterForImage openOk st id).2.2 then [id] else []) ++
        runImageQueries openOk (setupOrReuseImporterForImage openOk st id).1 rest

/-- The attempted-open ids predicted by the LRU-of-one cache: each query
whose id differs from the immediately preceding query's id attempts one
open. -/
def attemptsSpec : Option Nat → List Nat → List Nat
  | _, [] => []
  | prev, id :: rest =>
      if prev = Option.some id then attemptsSpec prev rest
      else id :: attemptsSpec (Option.some id) rest

theorem runImageQueries_eq (openOk : Nat → Bool) :
    ∀ (qs : List Nat) (st : ImageCacheState),
      runImageQueries openOk st qs = attemptsSpec st.imageImporterId qs := by
  intro qs
  induction qs with
  | nil => intro st; rfl
  | cons id rest ih =>
      intro st
      by_cases h : st.imageImporterId = Option.some id
      · rw [runImageQueries, attemptsSpec]
        rw [show setupOrReuseImporterForImage openOk st id = (st, st.importerOpen, false)
          from by unfold setupOrReuseImporterForImage; rw [if_pos h]]
        rw [if_pos h]
        simpa using ih st
      · rw [runImageQueries, attemptsSpec]
        rw [show setupOrReuseImporterForImage openOk st id =
            (⟨Option.some id, openOk id⟩, openOk id, true)
          from by unfold setupOrReuseImporterForImage; rw [if_neg h]]
        rw [if_neg h]
        simpa using ih ⟨Option.some id, openOk id⟩

/-- Claim C7 counterexample: interleaving queries on two ids re-opens an
already-seen id — the sequence `[0, 1, 0]` attempts two opens for image 0,
refuting "no two open attempts for the same image id occur during the
document's lifetime, regardless of interleaving". -/
theorem claim_C7_counterexample :
    ¬ ((runImageQueries (fun _ => true) initImageCache [0, 1, 0]).count 0 ≤ 1) := by
  decide

/-- Claim C7 (amended): the image cache is an LRU-of-one — an external open
is attempted exactly for each query whose image id differs from the
immediately preceding query's id (failures cached alike, since the attempt
pattern does not depend on open outcomes); in particular repeated consecutive
queries on one id attempt at most one open. -/
theorem claim_C7 (openOk : Nat → Bool) (qs : List Nat) (id : Nat) (n : Nat) :
    runImageQueries openOk initImageCache qs = attemptsSpec Option.none qs ∧
    runImageQueries openOk initImageCache (List.replicate (n + 1) id) = [id] := by
  refine ⟨runImageQueries_eq openOk qs initImageCache, ?_⟩
  rw [runImageQueries_eq openOk _ initImageCache]
  show attemptsSpec Option.none (List.replicate (n + 1) id) = [id]
  rw [List.replicate_succ, attemptsSpec, if_neg (by simp)]
  congr 1
  induction n with
  | zero => rfl
  | succ n ih =>
      rw [List.replicate_succ, attemptsSpec, if_pos rfl]
      exact ih

/-- `doImage2DLevelCount` (both importers): 1 when the delegate importer is
unavailable (failed or impossible open), the delegate's level count
otherwise; the query itself never fails. -/
def doImage2DLevelCountModel (openOk : Nat → Bool) (levelCountOf : Nat → Nat)
    (st : ImageCacheState) (id : Nat) : ImageCacheState × Nat :=
  ((setupOrReuseImporterForImage openOk st id).1,
   if (setupOrReuseImporterForImage openOk st id).2.1 then levelCountOf id else 1)

/-- Claim C10: the image-level-count query never reports failure — on a fresh
id it returns the delegate's level count when the underlying image opens and
1 otherwise (deferring the failure to the image query), and on a cached id it
returns according to the cached open outcome. -/
theorem claim_C10 (openOk : Nat → Bool) (levelCountOf : Nat → Nat)
    (st : ImageCacheState) (id : Nat) :
    (st.imageImporterId ≠ Option.some id → openOk id = false →
      (doImage2DLevelCountModel openOk levelCountOf st id).2 = 1) ∧
    (st.imageImporterId ≠ Option.some id → openOk id = true →
      (doImage2DLevelCountModel openOk levelCountOf st id).2 = levelCountOf id) ∧
    (st.imageImporterId = Option.some id →
      (doImage2DLevelCountModel openOk levelCountOf st id).2 =
        (if st.importerOpen then levelCountOf id else 1)) := by
  refine ⟨?_, ?_, ?_⟩
  · intro hne hok
    unfold doImage2DLevelCountModel setupOrReuseImporterForImage
    rw [if_neg hne]
    simp [hok]
  · intro hne hok
    unfold doImage2DLevelCountModel setupOrReuseImporterForImage
    rw [if_neg hne]
    simp [hok]
  · intro heq
    unfold doImage2DLevelCountModel setupOrReuseImporterForImage
    rw [if_pos heq]

theorem claim_C10_witness :
    (initImageCache.imageImporterId ≠ Option.some 0 ∧
     (fun _ : Nat => false) 0 = false) ∧
    ((initImageCache.imageImporterId ≠ Option.some 0 → (fun _ : Nat => false) 0 = false →
       (doImage2DLevelCountModel (fun _ => false) (fun _ => 3) initImageCache 0).2 = 1) ∧
     (initImageCache.imageImporterId ≠ Option.some 0 → (fun _ : Nat => false) 0 = true →
       (doImage2DLevelCountModel (fun _ => false) (fun _ => 3) initImageCache 0).2 = 3) ∧
     (initImageCache.imageImporterId = Option.some 0 →
       (doImage2DLevelCountModel (fun _ => false) (fun _ => 3) initImageCache 0).2 =
         (if initImageCache.importerOpen then 3 else 1))) :=
  ⟨⟨by decide, rfl⟩,
   claim_C10 (fun _ => false) (fun _ => 3) initImageCache 0⟩

end ImageCacheModel

namespace UfbxModel

/-- `ufbx_light_type` values. -/
inductive UfbxLightType where
  | point
  | directional
  | spot
  | area
  | volume
deriving DecidableEq, Repr

/-- `ufbx_light_decay` values. -/
inductive UfbxLightDecay where
  | decayNone
  | decayLinear
  | decayQuadratic
  | decayCubic
deriving DecidableEq, Repr

/-- The fields of `ufbx_light` that `UfbxImporter::doLight` reads. -/
structure UfbxLight where
  type : UfbxLightType
  decay : UfbxLightDecay
  color : ℚ × ℚ × ℚ
  intensity : ℚ
  inner_angle : ℚ
  outer_angle : ℚ
deriving DecidableEq, Repr

/-- Magnum `LightData::Type`. -/
inductive LightType where
  | Point
  | Directional
  | Spot
  | Ambient
deriving DecidableEq, Repr

/-- The `LightData` fields the query produces. -/
structure LightData where
  lightType : LightType
  color : ℚ × ℚ × ℚ
  intensity : ℚ
  attenuation : ℚ × ℚ × ℚ
  innerAngle : ℚ
  outerAngle : ℚ
deriving DecidableEq, Repr

/-- Diagnostics `doLight` can emit while still succeeding. -/
inductive LightWarn where
  | cubicPatchedToQuadratic
  | attenuationPatchedToConstant
deriving DecidableEq, Repr

/-- The attenuation triple selected from the decay enum (cubic falls back to
the quadratic triple, with a warning recorded separately). -/
def decayAttenuation : UfbxLightDecay → ℚ × ℚ × ℚ
  | UfbxLightDecay.decayNone => (1, 0, 0)
  | UfbxLightDecay.decayLinear => (0, 1, 0)
  | UfbxLightDecay.decayQuadratic => (0, 0, 1)
  | UfbxLightDecay.decayCubic => (0, 0, 1)

/-- `Math::clamp(v, lo, hi)`. -/
def clampQ (v lo hi : ℚ) : ℚ := min (max v lo) hi

/-- `UfbxImporter::doLight`: type mapping (area and volume lights fail the
query), decay-to-attenuation mapping with the cubic fallback, forcing
constant attenuation for directional and ambient lights, and the spot-angle
clamping; returns the result (if any) and the warnings emitted. -/
def doLightModel (l : UfbxLight) : Option LightData × List LightWarn :=
  match l.type with
  | UfbxLightType.area => (Option.none, [])
  | UfbxLightType.volume => (Option.none, [])
  | t =>
      let lightType : LightType :=
        match t with
        | UfbxLightType.point => LightType.Point
        | UfbxLightType.directional => LightType.Directional
        | _ => LightType.Spot
      let att0 := decayAttenuation l.decay
      let warns0 : List LightWarn :=
        match l.decay with
        | UfbxLightDecay.decayCubic => [LightWarn.cubicPatchedToQuadratic]
        | _ => []
      let patch : Bool :=
        ((lightType = LightType.Directional ∨ lightType = LightType.Ambient) ∧
          att0 ≠ ((1 : ℚ), (0 : ℚ), (0 : ℚ)) : Prop)
      let att1 := if patch then ((1 : ℚ), (0 : ℚ), (0 : ℚ)) else att0
      let warns1 := if patch then warns0 ++ [LightWarn.attenuationPatchedToConstant]
        else warns0
      let innerAngle := if lightType = LightType.Spot then clampQ l.inner_angle 0 360
        else (360 : ℚ)
      let outerAngle := if lightType = LightType.Spot then
          clampQ l.outer_angle innerAngle 360
        else (360 : ℚ)
      (Option.some ⟨lightType, l.color, l.intensity, att1, innerAngle, outerAngle⟩,
       warns1)

end UfbxModel

namespace UfbxModel

/-- Claim C8: a point, directional or spot light never fails the light query
because of its decay or attenuation data — cubic decay becomes the quadratic
triple `(0,0,1)` with a warning, a directional light whose attenuation is not
`(1,0,0)` has it forced to `(1,0,0)` with a warning, and the query returns a
result carrying the substituted value. -/
theorem claim_C8 (l : UfbxLight)
    (htype : l.type = UfbxLightType.point ∨ l.type = UfbxLightType.directional ∨
      l.type = UfbxLightType.spot) :
    ∃ ld, (doLightModel l).1 = Option.some ld ∧
      ld.attenuation = (if l.type = UfbxLightType.directional ∧
          decayAttenuation l.decay ≠ ((1 : ℚ), (0 : ℚ), (0 : ℚ))
        then ((1 : ℚ), (0 : ℚ), (0 : ℚ)) else decayAttenuation l.decay) ∧
      (l.decay = UfbxLightDecay.decayCubic →
        LightWarn.cubicPatchedToQuadratic ∈ (doLightModel l).2) ∧
      ((l.type = UfbxLightType.directional ∧
          decayAttenuation l.decay ≠ ((1 : ℚ), (0 : ℚ), (0 : ℚ))) →
        LightWarn.attenuationPatchedToConstant ∈ (doLightModel l).2) := by
  obtain ⟨ty, dec, color, inten, ia, oa⟩ := l
  simp only at htype ⊢
  rcases htype with h | h | h <;> subst h <;> cases dec <;>
    simp [doLightModel, decayAttenuation]

end UfbxModel

namespace UfbxModel

/-- A directional light with cubic decay, exercising both substitutions. -/
def w8light : UfbxLight :=
  ⟨UfbxLightType.directional, UfbxLightDecay.decayCubic, (1, 1, 1), 1, 0, 0⟩

theorem claim_C8_witness :
    (w8light.type = UfbxLightType.point ∨ w8light.type = UfbxLightType.directional ∨
      w8light.type = UfbxLightType.spot) ∧
    (∃ ld, (doLightModel w8light).1 = Option.some ld ∧
      ld.attenuation = (if w8light.type = UfbxLightType.directional ∧
          decayAttenuation w8light.decay ≠ ((1 : ℚ), (0 : ℚ), (0 : ℚ))
        then ((1 : ℚ), (0 : ℚ), (0 : ℚ)) else decayAttenuation w8light.decay) ∧
      (w8light.decay = UfbxLightDecay.decayCubic →
        LightWarn.cubicPatchedToQuadratic ∈ (doLightModel w8light).2) ∧
      ((w8light.type = UfbxLightType.directional ∧
          decayAttenuation w8light.decay ≠ ((1 : ℚ), (0 : ℚ), (0 : ℚ))) →
        LightWarn.attenuationPatchedToConstant ∈ (doLightModel w8light).2)) :=
  ⟨Or.inr (Or.inl rfl), claim_C8 w8light (Or.inr (Or.inl rfl))⟩

/-- `UfbxImporter::doSceneCount`. -/
def doSceneCount (s : UfbxScene) : Nat := 1

/-- `UfbxImporter::doDefaultScene`. -/
def doDefaultScene (s : UfbxScene) : Int := 0

/-- Claim C9: every successfully opened FBX document reports exactly one
scene, with default scene id 0, regardless of the file's content. -/
theorem claim_C9 : ∀ s : UfbxScene, doSceneCount s = 1 ∧ doDefaultScene s = 0 :=
  fun _ => ⟨rfl, rfl⟩

end UfbxModel
